import Mathlib

/-!
Verification of the censal_2025 table pipeline.

This file is a shallow embedding of the algorithmic core of the repository:
the annotated-value codec (`parse_val`, `parse_cell`, `fmt3`, `format_sum`
in `src/main.py`), the checksum/total aggregation (`_append_checksum_row`,
`process_saic.add_total_row_to_df`, `process_saic.process_variable`), the
reshape step (`pandas.pivot` vs `pandas.pivot_table`), the ratio engines
(`divide.py`, `divide2.py`, `legacy_main.step3_divide_national_state`) and
the percentage converter (`process_percentages.process_csv_last_row`).

Python strings are modelled as `List Char`; Python floats are modelled as
exact rationals (`ℚ`), with IEEE-style infinities and NaN modelled by the
`Vl` type where the divide/percentage scripts can actually produce them.
`pyFloat` models the builtin `float(...)` applied to positional decimal
literals (sign, digits, optional fraction), the only numeric shapes the
pipeline's cell grammar produces.
-/

abbrev Str := List Char

/-- Digit character for a value below ten, as written by Python's str(). -/
def digitChar (d : ℕ) : Char := Char.ofNat (48 + d)

/-- Numeric value of a digit character. -/
def dVal (c : Char) : ℕ := c.toNat - 48

/-- Fuel-driven digit expansion; with fuel at least the number itself this
is the usual most-significant-first decimal expansion. -/
def natDigitsF : ℕ → ℕ → Str
  | 0, n => [digitChar n]
  | fuel + 1, n => if n < 10 then [digitChar n] else natDigitsF fuel (n / 10) ++ [digitChar (n % 10)]

/-- Decimal digits of a natural number, most significant first
(the digit string produced by Python's number formatting). -/
def natDigits (n : ℕ) : Str := natDigitsF n n

/-- Value of a digit string, as computed by Python's int()/float() on the
integral part. -/
def digitsToNat (l : Str) : ℕ := l.foldl (fun a c => 10 * a + dVal c) 0

/-- Python str.isdigit() on the ASCII strings the pipeline handles:
nonempty and all decimal digits. Python's isdigit also accepts non-ASCII
digit characters on which int() raises ValueError; the theorems below
apply this model only to ASCII input, where the two coincide and every
guarded int() call succeeds. -/
def isDigits (l : Str) : Bool := !l.isEmpty && l.all Char.isDigit

/-- The decimal alphabet: ASCII digits, the dot and the minus sign. On
strings over this alphabet Python's float() grammar is exactly the
positional decimal grammar (no exponent, infinity, nan or underscore
reading is spellable), no '+' separator or C/n marker can occur, and
strip/replace/lower/upper are the identity. -/
def decChar (c : Char) : Bool := c.isDigit || c == '.' || c == '-'

/-- Python str.strip(): drop whitespace from both ends. -/
def pyStrip (l : Str) : Str :=
  ((l.dropWhile Char.isWhitespace).reverse.dropWhile Char.isWhitespace).reverse

/-- Python str.lower(). -/
def lowerL (l : Str) : Str := l.map Char.toLower

/-- Python str.upper(). -/
def upperL (l : Str) : Str := l.map Char.toUpper

/-- The normalisation s.replace('c', 'C') in parse_val / parse_cell. -/
def replCtoC (l : Str) : Str := l.map (fun c => if c = 'c' then 'C' else c)

/-- Python str.replace(' ', ''). -/
def removeSpaces (l : Str) : Str := l.filter (fun c => c != ' ')

/-- Python str.rstrip('0'). -/
def rstrip0 (l : Str) : Str := (l.reverse.dropWhile (fun c => c == '0')).reverse

/-- Python str.rstrip('.'). -/
def rstripDot (l : Str) : Str := (l.reverse.dropWhile (fun c => c == '.')).reverse

/-- Python ('+' in s). -/
def hasPlus (l : Str) : Bool := l.any (fun c => c == '+')

/-- The three fractional digits written by an f-string with format .3f. -/
def pad3 (f : ℕ) : Str := [digitChar (f / 100), digitChar (f / 10 % 10), digitChar (f % 10)]

/-- Decimal rendering of m/1000 with exactly 3 decimals followed by
rstrip('0').rstrip('.'): the body of fmt3 in src/main.py on an exact
thousandth. -/
def render3 (m : ℤ) : Str :=
  rstripDot (rstrip0 ((if m < 0 then ['-'] else []) ++
    natDigits (m.natAbs / 1000) ++ '.' :: pad3 (m.natAbs % 1000)))

/-- The integer of thousandths selected by Python's "%.3f" formatting
(exact on the 3-decimal values this pipeline produces). -/
def rnd3 (q : ℚ) : ℤ := ⌊q * 1000 + 1/2⌋

/-- fmt3 from src/main.py: format with 3 decimals, trim trailing zeros and
the trailing dot. -/
def fmt3L (q : ℚ) : Str := render3 (rnd3 q)

/-- Core of the model of Python float() after the optional sign: an
integral digit part, optionally a dot and a fractional digit part (the
part after the first dot). -/
def pyFloatCore (sgn : ℚ) (r : Str) : Option ℚ :=
  let ip := r.takeWhile (fun c => c != '.')
  let dp := r.dropWhile (fun c => c != '.')
  if dp = [] then
    if ip.isEmpty then none
    else if ip.all Char.isDigit then some (sgn * (digitsToNat ip : ℚ))
    else none
  else
    let fp := dp.drop 1
    if fp.any (fun c => c == '.') then none
    else if ip.isEmpty && fp.isEmpty then none
    else if ip.all Char.isDigit && fp.all Char.isDigit then
      some (sgn * ((digitsToNat ip : ℚ) + (digitsToNat fp : ℚ) / (10 : ℚ) ^ fp.length))
    else none

/-- Model of Python float() on positional decimal literals (optional
sign, digit part, optional dot and fraction part). It agrees with Python
exactly on the formatter's outputs and on every string over the decimal
alphabet of decChar; outside that alphabet float() has further readings
(exponents, inf/nan words, underscore separators, non-ASCII digits) that
are not modelled, and no theorem below quantifies this model over
them. -/
def pyFloat (l : Str) : Option ℚ :=
  match l with
  | [] => pyFloatCore 1 []
  | c :: r =>
    if c = '+' then pyFloatCore 1 r
    else if c = '-' then pyFloatCore (-1) r
    else pyFloatCore 1 (c :: r)

/-- A spreadsheet cell as seen by parse_val / parse_cell: missing (pd.NA /
NaN), already numeric, or a string. -/
inductive Cell where
  | na : Cell
  | num : ℚ → Cell
  | str : Str → Cell
deriving DecidableEq, Repr

/-- The spec's Annotated Value: a plain number, a number plus a count of
censored contributors, or absent. -/
inductive AV where
  | absent : AV
  | numeric : ℚ → AV
  | censored : ℚ → ℕ → AV
deriving DecidableEq, Repr

/-- Default count for a censoring annotation: 1 when no explicit leading
digits, the digits' value otherwise (lines 63 and 66 of src/main.py). -/
def coefVal (c : Str) : ℕ := if c = [] then 1 else if isDigits c then digitsToNat c else 1

/-- parse_val from _append_checksum_row in src/main.py (lines 21-83).
Returns (base, censored count, had_value). -/
def parse_val : Cell → ℚ × ℕ × Bool
  | Cell.na => (0, 0, false)
  | Cell.num q => (q, 0, true)
  | Cell.str raw =>
    let s := pyStrip raw
    if s = [] then (0, 0, false)
    else if lowerL s = ("nan").data then (0, 0, false)
    else
      let sn := replCtoC s
      if sn = ['C'] then (0, 1, true)
      else if upperL sn = ("N/A").data then (0, 0, true)
      else
        match pyFloat sn with
        | some q => (q, 0, true)
        | none =>
          if hasPlus sn then
            let baseStr := pyStrip (sn.takeWhile (fun c => c != '+'))
            let rest := removeSpaces (pyStrip ((sn.dropWhile (fun c => c != '+')).drop 1))
            match pyFloat baseStr with
            | none => (0, 0, false)
            | some b =>
              if rest.getLast? = some 'C' then (b, coefVal rest.dropLast, true)
              else if rest.getLast? = some 'n' then (b, coefVal rest.dropLast, true)
              else (b, 0, true)
          else
            let t := removeSpaces sn
            if t.getLast? = some 'C' then (0, coefVal t.dropLast, true)
            else if t.getLast? = some 'n' then (0, coefVal t.dropLast, true)
            else (0, 0, false)

/-- parse_cell from build_tam_regional_wide_csvs in src/main.py
(lines 439-488). Returns (base, censored count); there is no had_value
component in this variant. -/
def parse_cell : Cell → ℚ × ℕ
  | Cell.na => (0, 0)
  | Cell.num q => (q, 0)
  | Cell.str raw =>
    let s := pyStrip raw
    if s = [] then (0, 0)
    else if lowerL s = ("nan").data then (0, 0)
    else
      let sn := replCtoC s
      if upperL sn = ("N/A").data then (0, 0)
      else if sn = ['C'] then (0, 1)
      else
        match pyFloat sn with
        | some q => (q, 0)
        | none =>
          if hasPlus sn then
            let baseStr := pyStrip (sn.takeWhile (fun c => c != '+'))
            let rest := removeSpaces (pyStrip ((sn.dropWhile (fun c => c != '+')).drop 1))
            let b := (pyFloat baseStr).getD 0
            if rest.getLast? = some 'C' then (b, coefVal rest.dropLast)
            else if rest.getLast? = some 'n' then (b, coefVal rest.dropLast)
            else (b, 0)
          else
            let t := removeSpaces sn
            if t.getLast? = some 'C' && isDigits t.dropLast then (0, digitsToNat t.dropLast)
            else if t.getLast? = some 'n' && isDigits t.dropLast then (0, digitsToNat t.dropLast)
            else (0, 0)

/-- format_sum from build_tam_regional_wide_csvs (lines 490-496), also the
rendering used for the checksum cell (lines 116-123). -/
def format_sumL (b : ℚ) (c : ℕ) : Str :=
  if c = 0 then fmt3L b
  else if c = 1 then fmt3L b ++ (" + C").data
  else fmt3L b ++ (" + ").data ++ natDigits c ++ ['C']

/-- The cell written for an aggregated Annotated Value: pd.NA for absent,
else the format_sum string (lines 113-123 of src/main.py). -/
def formatCell : AV → Cell
  | AV.absent => Cell.na
  | AV.numeric b => Cell.str (fmt3L b)
  | AV.censored b k => Cell.str (format_sumL b k)

/-- Classify a (base, count, had_value) triple as an Annotated Value:
no value means absent, count zero means plain numeric, else censored. -/
def classifyTriple : ℚ × ℕ × Bool → AV
  | (b, k, had) => if had = false then AV.absent else if k = 0 then AV.numeric b else AV.censored b k

/-- Parse as an Annotated Value. -/
def parseAV (c : Cell) : AV := classifyTriple (parse_val c)

/-- The (base, count, had_value) components of an Annotated Value, as
parse_val reports them. -/
def avTriple : AV → ℚ × ℕ × Bool
  | AV.absent => (0, 0, false)
  | AV.numeric b => (b, 0, true)
  | AV.censored b k => (b, k, true)

/-- Base contributed to a sum. -/
def avBase : AV → ℚ
  | AV.absent => 0
  | AV.numeric b => b
  | AV.censored b _ => b

/-- Censoring count contributed to a sum (a numeric entry contributes 0). -/
def avCount : AV → ℕ
  | AV.absent => 0
  | AV.numeric _ => 0
  | AV.censored _ k => k

/-- Whether the entry carries a value at all. -/
def avPresent : AV → Bool
  | AV.absent => false
  | _ => true

/-- One step of the accumulation loop of _append_checksum_row
(lines 104-112): entries with had_value accumulate base and count and set
had_any, entries without are skipped. -/
def sumStep (acc : ℚ × ℕ × Bool) (v : AV) : ℚ × ℕ × Bool :=
  let t := avTriple v
  if t.2.2 then (acc.1 + t.1, acc.2.1 + t.2.1, true) else acc

/-- The aggregator's Sum over Annotated Values: the accumulation loop of
_append_checksum_row followed by its result classification
(lines 100-123 of src/main.py). -/
def sumAV (vs : List AV) : AV := classifyTriple (vs.foldl sumStep (0, 0, false))

/-- The checksum cell for one column: parse each selected cell with
parse_val, accumulate, write pd.NA when nothing had a value, else the
formatted sum (lines 100-123 of src/main.py). -/
def checksumSum (vs : List Cell) : Option Str :=
  let acc := vs.foldl
    (fun acc v =>
      let p := parse_val v
      if p.2.2 then (acc.1 + p.1, acc.2.1 + p.2.1, true) else acc)
    ((0 : ℚ), (0 : ℕ), false)
  if acc.2.2 = false then none else some (format_sumL acc.1 acc.2.1)

/-- Row test of _append_checksum_row (line 94): the activity label starts
with "Sector ". -/
def isSector (l : Str) : Bool := l.take 7 = ("Sector ").data

/-- The checksum value of column j: sum over the rows whose label starts
with "Sector " only. -/
def checksumCell (rows : List (Str × List Cell)) (j : ℕ) : Option Str :=
  checksumSum ((rows.filter (fun r => isSector r.1)).map (fun r => r.2.getD j Cell.na))

/-- One cell of the regional aggregation loop of
build_tam_regional_wide_csvs (lines 561-575): parse_cell every
municipality's cell, sum bases and counts, always render with
format_sum. -/
def regionalAggCell (vs : List Cell) : Str :=
  let acc := vs.foldl
    (fun acc v =>
      let p := parse_cell v
      (acc.1 + p.1, acc.2 + p.2))
    ((0 : ℚ), (0 : ℕ))
  format_sumL acc.1 acc.2

/-- A municipality's wide table: rows of (activity label, association list
from column name to cell). -/
abbrev MuniTable := List (Str × List (Str × Cell))

/-- Cell lookup after the normalisation of build_tam_regional_wide_csvs
(lines 543-546 add missing columns as pd.NA; lines 565-571 use pd.NA when
the activity row is missing). -/
def muniCell (t : MuniTable) (act : Str) (c : Str) : Cell :=
  match t.find? (fun r => r.1 == act) with
  | none => Cell.na
  | some r =>
    match r.2.find? (fun p => p.1 == c) with
    | none => Cell.na
    | some p => p.2

/-- A raw SAIC record as consumed by process_saic.process_variable:
municipality, activity, census year, numeric value (the caller has already
coerced every value with fillna(0)). -/
structure SRec where
  mun : Str
  act : Str
  year : ℤ
  val : ℚ
deriving DecidableEq, Repr

/-- One cell of the regional pivot of process_saic.process_variable
(lines 46-79): the groupby-sum of the variable over the region's
municipalities for one activity and year. pivot_table(fill_value=0) and
the explicit `pivoted[tup] = 0` loop make a cell with no matching records
the number 0. -/
def processVariableCell (df : List SRec) (muns : List Str) (act : Str) (yr : ℤ) : ℚ :=
  ((df.filter (fun r => muns.contains r.mun && r.mun != [] && r.act == act && r.year == yr)).map
    (fun r => r.val)).sum

/-- Column sum over every row of a table (legacy numeric tables). -/
def totalCell (rows : List (Str × List ℚ)) (j : ℕ) : ℚ :=
  (rows.map (fun r => r.2.getD j 0)).sum

/-- add_total_row_to_df from src/process_saic.py (lines 39-44): append a
row labelled "Total" holding the per-column sum over every row of the
table. -/
def addTotalRowL (rows : List (Str × List ℚ)) (ncols : ℕ) : List (Str × List ℚ) :=
  rows ++ [(("Total").data, (List.range ncols).map (fun j => totalCell rows j))]

/-- The (row key, column key) of a long-form record. -/
def recKey (r : Str × Str × ℚ) : Str × Str := (r.1, r.2.1)

/-- Model of pandas.DataFrame.pivot as used in build_national_wide_csv
(line 170): raises (error) when two records share a (row, column) key,
otherwise produces the key-value mapping unchanged. -/
def pivotStrict (records : List (Str × Str × ℚ)) :
    Except Unit (List ((Str × Str) × ℚ)) :=
  if (records.map recKey).Nodup then
    Except.ok (records.map (fun r => (recKey r, r.2.2)))
  else Except.error ()

/-- Model of pandas.pivot_table(aggfunc="sum", fill_value=0) as used in
export_nation_state_wide_csvs (lines 93-100 of src/process_saic.py): the
cell is the sum of every record mapping to that (row, column) key. -/
def pivotTableCellL (records : List (Str × Str × ℚ)) (a c : Str) : ℚ :=
  ((records.filter (fun r => r.1 == a && r.2.1 == c)).map (fun r => r.2.2)).sum

/-- Reordering step of build_national_wide_csv (lines 192-195): when the
total label occurs, concatenate the non-total rows with the total rows. -/
def moveTotalLast (lbl : Str) (rows : List (Str × List Cell)) : List (Str × List Cell) :=
  if rows.any (fun r => r.1 == lbl) then
    rows.filter (fun r => r.1 != lbl) ++ rows.filter (fun r => r.1 == lbl)
  else rows

/-- The checksum row appended by _append_checksum_row. -/
def checksumRowOf (rows : List (Str × List Cell)) (ncols : ℕ) : Str × List Cell :=
  (("checksum").data,
    (List.range ncols).map (fun j =>
      match checksumCell rows j with
      | none => Cell.na
      | some s => Cell.str s))

/-- Row block written by build_national_wide_csv (lines 192-198): move the
total row to the end, then append the checksum row. -/
def buildRowsFinal (lbl : Str) (rows : List (Str × List Cell)) (ncols : ℕ) :
    List (Str × List Cell) :=
  let w := moveTotalLast lbl rows
  w ++ [checksumRowOf w ncols]

/-- A float-like value: finite rational, the two infinities, or NaN. The
divide and percentage scripts operate on IEEE doubles, where division by
zero produces an infinity and 0/0 produces NaN. -/
inductive Vl where
  | fin : ℚ → Vl
  | pInf : Vl
  | nInf : Vl
  | nan : Vl
deriving DecidableEq, Repr

/-- IEEE-style division (exact on finite values, single zero). -/
def vdiv : Vl → Vl → Vl
  | Vl.nan, _ => Vl.nan
  | _, Vl.nan => Vl.nan
  | Vl.fin a, Vl.fin b =>
    if b = 0 then (if a = 0 then Vl.nan else if 0 < a then Vl.pInf else Vl.nInf)
    else Vl.fin (a / b)
  | Vl.fin _, Vl.pInf => Vl.fin 0
  | Vl.fin _, Vl.nInf => Vl.fin 0
  | Vl.pInf, Vl.fin b => if 0 ≤ b then Vl.pInf else Vl.nInf
  | Vl.nInf, Vl.fin b => if 0 ≤ b then Vl.nInf else Vl.pInf
  | Vl.pInf, Vl.pInf => Vl.nan
  | Vl.pInf, Vl.nInf => Vl.nan
  | Vl.nInf, Vl.pInf => Vl.nan
  | Vl.nInf, Vl.nInf => Vl.nan

/-- IEEE-style multiplication (exact on finite values). -/
def vmul : Vl → Vl → Vl
  | Vl.nan, _ => Vl.nan
  | _, Vl.nan => Vl.nan
  | Vl.fin a, Vl.fin b => Vl.fin (a * b)
  | Vl.fin a, Vl.pInf => if a = 0 then Vl.nan else if 0 < a then Vl.pInf else Vl.nInf
  | Vl.fin a, Vl.nInf => if a = 0 then Vl.nan else if 0 < a then Vl.nInf else Vl.pInf
  | Vl.pInf, Vl.fin b => if b = 0 then Vl.nan else if 0 < b then Vl.pInf else Vl.nInf
  | Vl.nInf, Vl.fin b => if b = 0 then Vl.nan else if 0 < b then Vl.nInf else Vl.pInf
  | Vl.pInf, Vl.pInf => Vl.pInf
  | Vl.pInf, Vl.nInf => Vl.nInf
  | Vl.nInf, Vl.pInf => Vl.nInf
  | Vl.nInf, Vl.nInf => Vl.pInf

/-- Round-half-to-even to an integer (numpy's rounding rule, exact at the
rational level). -/
def roundHE (x : ℚ) : ℤ :=
  let f := ⌊x⌋
  let r := x - (f : ℚ)
  if r < 1/2 then f else if 1/2 < r then f + 1 else if f % 2 = 0 then f else f + 1

/-- Round to 2 decimals. -/
def round2 (q : ℚ) : ℚ := (roundHE (q * 100) : ℚ) / 100

/-- DataFrame.round(2): finite values round, infinities and NaN pass. -/
def vround2 : Vl → Vl
  | Vl.fin q => Vl.fin (round2 q)
  | v => v

/-- Guarded cell quotient of divide.py line 31 and divide2.py line 59: the
denominator's zeros are replaced with NaN before dividing. -/
def divCell (n d : Vl) : Vl := vdiv n (if d = Vl.fin 0 then Vl.nan else d)

/-- A numerator cell against an optionally missing denominator column:
divide.py line 33 writes NaN when the column is absent from the
denominator table. -/
def divResult (n : Vl) : Option Vl → Vl
  | none => Vl.nan
  | some d => divCell n d

/-- Cell quotient of legacy_main.step3_divide_national_state (line 236):
the zeros of the NUMERATOR (df_tam) are replaced with NaN and the division
by df_nac is unguarded. -/
def legacyDivCell (t n : Vl) : Vl := vdiv (if t = Vl.fin 0 then Vl.nan else t) n

/-- One data cell of process_csv_last_row (process_percentages.py
lines 22-29): divide by the total row's cell, multiply by 100, round to
2 decimals. -/
def pctCell (x t : Vl) : Vl := vround2 (vmul (vdiv x t) (Vl.fin 100))

/-- process_csv_last_row on the numeric block of a table whose last row is
the grand total: every data row is rescaled against the last row and the
last row is forced to exactly 100. -/
def pctRows (rows : List (Str × List Vl)) : List (Str × List Vl) :=
  match rows.getLast? with
  | none => []
  | some tot =>
    (rows.dropLast.map (fun r => (r.1, List.zipWith pctCell r.2 tot.2))) ++
      [(tot.1, tot.2.map (fun _ => Vl.fin 100))]

/-- Canonical decimal digit characters. -/
def isDigitC (c : Char) : Prop := ∃ d, d < 10 ∧ c = digitChar d

theorem digitc_facts (c : Char) (hc : isDigitC c) :
    c.isDigit = true ∧ c.toLower = c ∧ c.toUpper = c ∧ c.isWhitespace = false ∧
      c ≠ '.' ∧ c ≠ '+' ∧ c ≠ '-' ∧ c ≠ ' ' ∧ c ≠ 'c' ∧ c ≠ 'C' ∧ c ≠ 'n' ∧ c ≠ 'N' := by
  obtain ⟨d, hd, rfl⟩ := hc
  interval_cases d <;> exact ⟨rfl, rfl, rfl, rfl, by decide, by decide, by decide, by decide,
    by decide, by decide, by decide, by decide⟩

theorem dVal_digitChar (d : ℕ) (hd : d < 10) : dVal (digitChar d) = d := by
  interval_cases d <;> decide

theorem natDigitsF_ne_nil (fuel n : ℕ) : natDigitsF fuel n ≠ [] := by
  cases fuel with
  | zero => simp [natDigitsF]
  | succ fuel =>
    by_cases h : n < 10
    · simp [natDigitsF, h]
    · simp [natDigitsF, h]

theorem natDigits_ne_nil (n : ℕ) : natDigits n ≠ [] := natDigitsF_ne_nil n n

theorem natDigitsF_mem (fuel n : ℕ) (hfuel : n ≤ fuel ∨ n < 10) :
    ∀ c ∈ natDigitsF fuel n, isDigitC c := by
  induction fuel generalizing n with
  | zero =>
    intro c hcmem
    have hn : n < 10 := by omega
    simp [natDigitsF] at hcmem
    exact ⟨n, hn, hcmem⟩
  | succ fuel ih =>
    intro c hcmem
    by_cases h : n < 10
    · simp [natDigitsF, h] at hcmem
      exact ⟨n, h, hcmem⟩
    · simp only [natDigitsF, if_neg h, List.mem_append, List.mem_singleton] at hcmem
      rcases hcmem with hcmem | rfl
      · refine ih (n / 10) (Or.inl ?_) c hcmem
        rcases hfuel with hfuel | hfuel
        · have := Nat.div_lt_self (show 0 < n by omega) (show 1 < 10 by omega)
          omega
        · omega
      · exact ⟨n % 10, Nat.mod_lt _ (by omega), rfl⟩

theorem natDigits_mem (n : ℕ) : ∀ c ∈ natDigits n, isDigitC c :=
  natDigitsF_mem n n (Or.inl le_rfl)

theorem digitsToNat_append_one (xs : Str) (c : Char) :
    digitsToNat (xs ++ [c]) = 10 * digitsToNat xs + dVal c := by
  simp [digitsToNat, List.foldl_append]

theorem digitsToNat_natDigitsF (fuel n : ℕ) (hfuel : n ≤ fuel ∨ n < 10) :
    digitsToNat (natDigitsF fuel n) = n := by
  induction fuel generalizing n with
  | zero =>
    have hn : n < 10 := by omega
    simp [natDigitsF, digitsToNat, dVal_digitChar n hn]
  | succ fuel ih =>
    by_cases h : n < 10
    · simp [natDigitsF, h, digitsToNat, dVal_digitChar n h]
    · rw [natDigitsF, if_neg h, digitsToNat_append_one,
        dVal_digitChar _ (Nat.mod_lt _ (by omega))]
      rw [ih (n / 10) ?side]
      · omega
      case side =>
        rcases hfuel with hfuel | hfuel
        · have := Nat.div_lt_self (show 0 < n by omega) (show 1 < 10 by omega)
          omega
        · omega

theorem digitsToNat_natDigits (n : ℕ) : digitsToNat (natDigits n) = n :=
  digitsToNat_natDigitsF n n (Or.inl le_rfl)

theorem natDigits_all_isDigit (n : ℕ) : (natDigits n).all Char.isDigit = true := by
  rw [List.all_eq_true]
  exact fun c hc => (digitc_facts c (natDigits_mem n c hc)).1

theorem isDigits_natDigits (n : ℕ) : isDigits (natDigits n) = true := by
  rw [isDigits]
  have h1 : (natDigits n).isEmpty = false := by
    rw [List.isEmpty_eq_false_iff_exists_mem]
    rcases List.exists_mem_of_ne_nil _ (natDigits_ne_nil n) with ⟨c, hc⟩
    exact ⟨c, hc⟩
  rw [h1, natDigits_all_isDigit]
  rfl

theorem takeWhile_append_all (p : Char → Bool) (xs ys : Str) (h : ∀ c ∈ xs, p c = true) :
    (xs ++ ys).takeWhile p = xs ++ ys.takeWhile p := by
  induction xs with
  | nil => rfl
  | cons a l ih =>
    have hpa : p a = true := h a (List.mem_cons_self a l)
    have hrec := ih fun c hc => h c (List.mem_cons_of_mem a hc)
    simp only [List.cons_append, List.takeWhile_cons, hpa, if_true, hrec]

theorem dropWhile_append_all (p : Char → Bool) (xs ys : Str) (h : ∀ c ∈ xs, p c = true) :
    (xs ++ ys).dropWhile p = ys.dropWhile p := by
  induction xs with
  | nil => rfl
  | cons a l ih =>
    have hpa : p a = true := h a (List.mem_cons_self a l)
    have hrec := ih fun c hc => h c (List.mem_cons_of_mem a hc)
    simp only [List.cons_append, List.dropWhile_cons, hpa, if_true, hrec]

theorem dropWhile_cons_stop (p : Char → Bool) (a : Char) (l : Str) (h : p a = false) :
    (a :: l).dropWhile p = a :: l := by
  simp [List.dropWhile_cons, h]

theorem takeWhile_cons_stop (p : Char → Bool) (a : Char) (l : Str) (h : p a = false) :
    (a :: l).takeWhile p = [] := by
  simp [List.takeWhile_cons, h]

theorem dropWhile_append_stop (p : Char → Bool) (xs : Str) (y : Char) (ys : Str)
    (hy : p y = false) :
    (xs ++ y :: ys).dropWhile p = xs.dropWhile p ++ y :: ys := by
  induction xs with
  | nil => simp [dropWhile_cons_stop p y ys hy]
  | cons a l ih =>
    by_cases ha : p a = true
    · simp only [List.cons_append, List.dropWhile_cons, ha, if_true]
      exact ih
    · have ha' : p a = false := eq_false_of_ne_true ha
      rw [List.cons_append, dropWhile_cons_stop p a (l ++ y :: ys) ha',
        dropWhile_cons_stop p a l ha', List.cons_append]

theorem dropWhile_eq_self_of_head (p : Char → Bool) (l : Str)
    (h : ∀ c, l.head? = some c → p c = false) : l.dropWhile p = l := by
  cases l with
  | nil => rfl
  | cons a rest => exact dropWhile_cons_stop p a rest (h a rfl)

/-- pyStrip is the identity when neither end is whitespace. -/
theorem pyStrip_eq_self (l : Str)
    (h1 : ∀ c, l.head? = some c → c.isWhitespace = false)
    (h2 : ∀ c, l.getLast? = some c → c.isWhitespace = false) : pyStrip l = l := by
  rw [pyStrip, dropWhile_eq_self_of_head _ _ h1, dropWhile_eq_self_of_head, List.reverse_reverse]
  intro c hc
  rw [List.head?_reverse] at hc
  exact h2 c hc

theorem pyStrip_append_space (l : Str) (hne : l ≠ [])
    (h1 : ∀ c, l.head? = some c → c.isWhitespace = false)
    (h2 : ∀ c, l.getLast? = some c → c.isWhitespace = false) :
    pyStrip (l ++ [' ']) = l := by
  rw [pyStrip]
  have hd : (l ++ [' ']).dropWhile Char.isWhitespace = l ++ [' '] := by
    refine dropWhile_eq_self_of_head _ _ ?_
    intro c hc
    cases l with
    | nil => exact absurd rfl hne
    | cons a rest =>
      simp only [List.cons_append, List.head?_cons, Option.some_inj] at hc
      exact hc ▸ h1 a rfl
  rw [hd, List.reverse_append]
  simp only [List.reverse_singleton, List.singleton_append, List.dropWhile_cons,
    show ' '.isWhitespace = true from rfl, if_true]
  rw [dropWhile_eq_self_of_head, List.reverse_reverse]
  intro c hc
  rw [List.head?_reverse] at hc
  exact h2 c hc

theorem pyStrip_cons_space (l : Str) : pyStrip (' ' :: l) = pyStrip l := by
  rw [pyStrip, pyStrip, List.dropWhile_cons]
  simp only [show ' '.isWhitespace = true from rfl, if_true]

theorem removeSpaces_eq_self (l : Str) (h : ∀ c ∈ l, c ≠ ' ') : removeSpaces l = l := by
  rw [removeSpaces, List.filter_eq_self]
  intro c hc
  simpa using h c hc

theorem replCtoC_eq_self (l : Str) (h : ∀ c ∈ l, c ≠ 'c') : replCtoC l = l := by
  rw [replCtoC]
  conv_rhs => rw [← List.map_id l]
  refine List.map_congr_left ?_
  intro c hc
  simp [h c hc]

theorem hasPlus_true_of_mem (l : Str) (h : '+' ∈ l) : hasPlus l = true := by
  rw [hasPlus, List.any_eq_true]
  refine ⟨'+', h, ?_⟩
  rfl

theorem hasPlus_false (l : Str) (h : ∀ c ∈ l, c ≠ '+') : hasPlus l = false := by
  rw [hasPlus]
  rw [List.any_eq_false]
  intro c hc
  simp [h c hc]

theorem getLast?_mem_self (l : Str) (c : Char) (h : l.getLast? = some c) : c ∈ l := by
  cases l with
  | nil => simp at h
  | cons a t =>
    rw [List.getLast?_eq_getLast_of_ne_nil (List.cons_ne_nil a t), Option.some_inj] at h
    rw [← h]
    exact List.getLast_mem _

theorem exists_getLast?_of_ne_nil (l : Str) (h : l ≠ []) : ∃ c, l.getLast? = some c := by
  cases hl : l.getLast? with
  | none => exact absurd (List.getLast?_eq_none_iff.mp hl) h
  | some a => exact ⟨a, rfl⟩

theorem getLast?_cons_of_ne_nil (a : Char) (l : Str) (h : l ≠ []) :
    (a :: l).getLast? = l.getLast? := by
  rw [show (a :: l : Str) = [a] ++ l from rfl, List.getLast?_append_of_ne_nil _ h]

theorem rstrip0_append_dot (A P : Str) : rstrip0 (A ++ '.' :: P) = A ++ '.' :: rstrip0 P := by
  rw [rstrip0, rstrip0]
  rw [show A ++ '.' :: P = (A ++ ['.']) ++ P by simp]
  rw [List.reverse_append, List.reverse_append]
  simp only [List.reverse_singleton]
  rw [show (['.'] ++ A.reverse : Str) = '.' :: A.reverse from rfl]
  rw [dropWhile_append_stop _ _ '.' _ (by decide)]
  rw [List.reverse_append]
  simp

theorem rstripDot_eq_self (l : Str) (h : ∀ c, l.getLast? = some c → c ≠ '.') :
    rstripDot l = l := by
  rw [rstripDot, dropWhile_eq_self_of_head, List.reverse_reverse]
  intro c hc
  rw [List.head?_reverse] at hc
  have := h c hc
  simpa using this

theorem rstripDot_append_dot (A : Str) (h : ∀ c, A.getLast? = some c → c ≠ '.') :
    rstripDot (A ++ ['.']) = A := by
  rw [rstripDot, List.reverse_append]
  simp only [List.reverse_singleton, List.singleton_append, List.dropWhile_cons]
  rw [if_pos (by decide)]
  rw [dropWhile_eq_self_of_head, List.reverse_reverse]
  intro c hc
  rw [List.head?_reverse] at hc
  have := h c hc
  simpa using this

theorem rstrip0_sublist_mem (l : Str) (c : Char) (h : c ∈ rstrip0 l) : c ∈ l := by
  rw [rstrip0, List.mem_reverse] at h
  have := List.dropWhile_sublist (l := l.reverse) (p := fun c => c == '0')
  have hmem := this.mem h
  rwa [List.mem_reverse] at hmem

/-- The stripped fractional block of a three-digit group: its characters
are digits, it is empty exactly on zero, and otherwise it denotes f/1000. -/
theorem rstrip0_pad3 (f : ℕ) (hf : f < 1000) :
    (∀ c ∈ rstrip0 (pad3 f), isDigitC c) ∧
      (f = 0 → rstrip0 (pad3 f) = []) ∧
      (f ≠ 0 → rstrip0 (pad3 f) ≠ [] ∧
        (digitsToNat (rstrip0 (pad3 f)) : ℚ) / 10 ^ (rstrip0 (pad3 f)).length = (f : ℚ) / 1000) := by
  have h1 : f / 100 < 10 := by omega
  have h2 : f / 10 % 10 < 10 := by omega
  have h3 : f % 10 < 10 := by omega
  have hmem : ∀ c ∈ rstrip0 (pad3 f), isDigitC c := by
    intro c hc
    have := rstrip0_sublist_mem _ c hc
    simp only [pad3, List.mem_cons, List.mem_singleton, List.not_mem_nil, or_false] at this
    rcases this with rfl | rfl | rfl
    · exact ⟨f / 100, h1, rfl⟩
    · exact ⟨f / 10 % 10, h2, rfl⟩
    · exact ⟨f % 10, h3, rfl⟩
  refine ⟨hmem, ?_, ?_⟩
  · rintro rfl
    decide
  · intro hfne
    have hchar : ∀ d, d < 10 → (digitChar d == '0') = decide (d = 0) := by
      intro d hd
      interval_cases d <;> decide
    have key : rstrip0 (pad3 f) =
        if f % 10 ≠ 0 then pad3 f
        else if f / 10 % 10 ≠ 0 then [digitChar (f / 100), digitChar (f / 10 % 10)]
        else [digitChar (f / 100)] := by
      rw [rstrip0, pad3]
      simp only [List.reverse_cons, List.reverse_nil, List.nil_append, List.cons_append,
        List.singleton_append]
      by_cases c3 : f % 10 = 0
      · rw [List.dropWhile_cons, if_pos (by rw [hchar _ h3]; simp [c3])]
        by_cases c2 : f / 10 % 10 = 0
        · rw [List.dropWhile_cons, if_pos (by rw [hchar _ h2]; simp [c2])]
          have c1 : f / 100 ≠ 0 := by omega
          rw [List.dropWhile_cons, if_neg (by rw [hchar _ h1]; simp [c1])]
          simp [c3, c2]
        · rw [List.dropWhile_cons, if_neg (by rw [hchar _ h2]; simp [c2])]
          simp [c3, c2]
      · rw [List.dropWhile_cons, if_neg (by rw [hchar _ h3]; simp [c3])]
        simp [c3, pad3]
    rw [key]
    by_cases c3 : f % 10 = 0
    · by_cases c2 : f / 10 % 10 = 0
      · have c1 : f / 100 ≠ 0 := by omega
        rw [if_neg (by omega), if_neg (by omega)]
        refine ⟨by simp, ?_⟩
        simp only [digitsToNat, List.foldl, List.length_singleton, List.length_nil,
          pow_zero, pow_one, dVal_digitChar _ h1]
        rw [div_eq_div_iff (by norm_num) (by norm_num)]
        have hfq : (f : ℚ) = ((100 * (f / 100) : ℕ) : ℚ) := by
          congr 1
          omega
        rw [hfq]
        push_cast
        ring
      · rw [if_neg (by omega), if_pos (by omega)]
        refine ⟨by simp, ?_⟩
        simp only [digitsToNat, List.foldl, List.length_cons, List.length_singleton,
          List.length_nil, pow_zero, dVal_digitChar _ h1, dVal_digitChar _ h2]
        rw [div_eq_div_iff (by norm_num) (by norm_num)]
        have hfq : (f : ℚ) = ((100 * (f / 100) + 10 * (f / 10 % 10) : ℕ) : ℚ) := by
          congr 1
          omega
        rw [hfq]
        push_cast
        ring
    · rw [if_pos (by omega)]
      refine ⟨by simp [pad3], ?_⟩
      simp only [pad3, digitsToNat, List.foldl, List.length_cons, List.length_singleton,
        List.length_nil, pow_zero, dVal_digitChar _ h1, dVal_digitChar _ h2, dVal_digitChar _ h3]
      rw [div_eq_div_iff (by norm_num) (by norm_num)]
      have hfq : (f : ℚ) = ((100 * (f / 100) + 10 * (f / 10 % 10) + f % 10 : ℕ) : ℚ) := by
        congr 1
        omega
      rw [hfq]
      push_cast
      ring

theorem natDigits_getLast_digit (n : ℕ) :
    ∀ c, (natDigits n).getLast? = some c → isDigitC c := by
  intro c hc
  exact natDigits_mem n c (getLast?_mem_self _ c hc)

/-- Shape of the fmt3 rendering: optional sign, the integral digits, and
either nothing or a dot followed by the stripped fractional digits. -/
theorem render3_shape (m : ℤ) :
    render3 m = (if m < 0 then ['-'] else []) ++ natDigits (m.natAbs / 1000) ++
      (if m.natAbs % 1000 = 0 then [] else '.' :: rstrip0 (pad3 (m.natAbs % 1000))) := by
  have hf : m.natAbs % 1000 < 1000 := Nat.mod_lt _ (by omega)
  obtain ⟨hmem, hzero, hpos⟩ := rstrip0_pad3 (m.natAbs % 1000) hf
  rw [render3]
  rw [show (if m < 0 then ['-'] else []) ++ natDigits (m.natAbs / 1000) ++
      '.' :: pad3 (m.natAbs % 1000) =
      ((if m < 0 then ['-'] else []) ++ natDigits (m.natAbs / 1000)) ++
      '.' :: pad3 (m.natAbs % 1000) by simp]
  rw [rstrip0_append_dot]
  have hlastA : ∀ c, ((if m < 0 then ['-'] else []) ++
      natDigits (m.natAbs / 1000)).getLast? = some c → c ≠ '.' := by
    intro c hc
    rw [List.getLast?_append_of_ne_nil _ (natDigits_ne_nil _)] at hc
    exact (digitc_facts c (natDigits_getLast_digit _ c hc)).2.2.2.2.1
  by_cases hz : m.natAbs % 1000 = 0
  · rw [hzero hz]
    rw [if_pos hz, rstripDot_append_dot _ hlastA, List.append_assoc, List.append_nil]
  · obtain ⟨hne, _⟩ := hpos hz
    rw [if_neg hz]
    rw [rstripDot_eq_self, List.append_assoc]
    intro c hc
    rw [List.getLast?_append_of_ne_nil _ (by simp),
      getLast?_cons_of_ne_nil _ _ hne] at hc
    exact (digitc_facts c (hmem c (getLast?_mem_self _ c hc))).2.2.2.2.1

theorem render3_mem (m : ℤ) :
    ∀ c ∈ render3 m, isDigitC c ∨ c = '-' ∨ c = '.' := by
  intro c hc
  rw [render3_shape] at hc
  simp only [List.append_assoc, List.mem_append] at hc
  rcases hc with hc | hc | hc
  · by_cases hm : m < 0
    · rw [if_pos hm] at hc
      simp only [List.mem_singleton] at hc
      exact Or.inr (Or.inl hc)
    · rw [if_neg hm] at hc
      simp at hc
  · exact Or.inl (natDigits_mem _ c hc)
  · by_cases hz : m.natAbs % 1000 = 0
    · rw [if_pos hz] at hc
      simp at hc
    · rw [if_neg hz] at hc
      rcases List.mem_cons.mp hc with rfl | hc
      · right; right; rfl
      · exact Or.inl ((rstrip0_pad3 _ (Nat.mod_lt _ (by omega))).1 c hc)

theorem render3_ne_nil (m : ℤ) : render3 m ≠ [] := by
  rw [render3_shape]
  intro h
  rcases List.append_eq_nil.mp h with ⟨h1, _⟩
  rcases List.append_eq_nil.mp h1 with ⟨_, h3⟩
  exact natDigits_ne_nil _ h3

theorem render3_head (m : ℤ) :
    ∀ c, (render3 m).head? = some c → isDigitC c ∨ c = '-' := by
  intro c hc
  rw [render3_shape] at hc
  by_cases hm : m < 0
  · rw [if_pos hm] at hc
    simp only [List.cons_append, List.head?_cons, Option.some_inj] at hc
    exact Or.inr hc.symm
  · rw [if_neg hm, List.nil_append] at hc
    rcases hd : natDigits (m.natAbs / 1000) with _ | ⟨a, t⟩
    · exact absurd hd (natDigits_ne_nil _)
    · rw [hd, List.cons_append, List.head?_cons, Option.some_inj] at hc
      refine Or.inl (natDigits_mem (m.natAbs / 1000) c ?_)
      rw [hd, ← hc]
      simp

theorem render3_getLast (m : ℤ) :
    ∀ c, (render3 m).getLast? = some c → isDigitC c := by
  intro c hc
  rw [render3_shape] at hc
  by_cases hz : m.natAbs % 1000 = 0
  · rw [if_pos hz, List.append_nil, List.getLast?_append_of_ne_nil _ (natDigits_ne_nil _)] at hc
    exact natDigits_getLast_digit _ c hc
  · have hf : m.natAbs % 1000 < 1000 := Nat.mod_lt _ (by omega)
    obtain ⟨hne, _⟩ := (rstrip0_pad3 _ hf).2.2 hz
    rw [if_neg hz, List.getLast?_append_of_ne_nil _ (by simp),
      getLast?_cons_of_ne_nil _ _ hne] at hc
    exact (rstrip0_pad3 _ hf).1 c (getLast?_mem_self _ c hc)

theorem takeWhile_all (p : Char → Bool) (l : Str) (h : ∀ c ∈ l, p c = true) :
    l.takeWhile p = l := by
  have := takeWhile_append_all p l [] h
  simpa using this

theorem dropWhile_all (p : Char → Bool) (l : Str) (h : ∀ c ∈ l, p c = true) :
    l.dropWhile p = [] := by
  rw [List.dropWhile_eq_nil_iff]
  exact fun x hx => h x hx

theorem digit_ne_dot_bne (c : Char) (h : isDigitC c) : (c != '.') = true := by
  have := (digitc_facts c h).2.2.2.2.1
  simp [this]

theorem all_isDigit_of_canonical (l : Str) (h : ∀ c ∈ l, isDigitC c) :
    l.all Char.isDigit = true := by
  rw [List.all_eq_true]
  exact fun c hc => (digitc_facts c (h c hc)).1

theorem pyFloatCore_digits (sgn : ℚ) (ip : Str) (hip : ∀ c ∈ ip, isDigitC c) (hne : ip ≠ []) :
    pyFloatCore sgn ip = some (sgn * (digitsToNat ip : ℚ)) := by
  have htake : ip.takeWhile (fun c => c != '.') = ip :=
    takeWhile_all _ _ (fun c hc => digit_ne_dot_bne c (hip c hc))
  have hdrop : ip.dropWhile (fun c => c != '.') = [] :=
    dropWhile_all _ _ (fun c hc => digit_ne_dot_bne c (hip c hc))
  simp only [pyFloatCore, htake, hdrop]
  rw [if_pos trivial, if_neg (by simp [List.isEmpty_iff, hne]),
    if_pos (all_isDigit_of_canonical ip hip)]

theorem pyFloatCore_digits_frac (sgn : ℚ) (ip fd : Str)
    (hip : ∀ c ∈ ip, isDigitC c) (hipne : ip ≠ [])
    (hfd : ∀ c ∈ fd, isDigitC c) (_hfdne : fd ≠ []) :
    pyFloatCore sgn (ip ++ '.' :: fd) =
      some (sgn * ((digitsToNat ip : ℚ) + (digitsToNat fd : ℚ) / (10 : ℚ) ^ fd.length)) := by
  have htake : (ip ++ '.' :: fd).takeWhile (fun c => c != '.') = ip := by
    rw [takeWhile_append_all _ _ _ (fun c hc => digit_ne_dot_bne c (hip c hc)),
      takeWhile_cons_stop _ _ _ (by decide), List.append_nil]
  have hdrop : (ip ++ '.' :: fd).dropWhile (fun c => c != '.') = '.' :: fd := by
    rw [dropWhile_append_all _ _ _ (fun c hc => digit_ne_dot_bne c (hip c hc)),
      dropWhile_cons_stop _ _ _ (by decide)]
  simp only [pyFloatCore, htake, hdrop]
  rw [if_neg (by simp)]
  simp only [List.drop_succ_cons, List.drop_zero]
  rw [if_neg ?hany, if_neg ?hempty, if_pos ?hdigits]
  case hany =>
    rw [Bool.not_eq_true, List.any_eq_false]
    intro c hc
    have := (digitc_facts c (hfd c hc)).2.2.2.2.1
    simp [this]
  case hempty =>
    simp [List.isEmpty_iff, hipne]
  case hdigits =>
    rw [all_isDigit_of_canonical ip hip, all_isDigit_of_canonical fd hfd]
    rfl

theorem pyFloat_cons (c : Char) (r : Str) :
    pyFloat (c :: r) = if c = '+' then pyFloatCore 1 r
      else if c = '-' then pyFloatCore (-1) r else pyFloatCore 1 (c :: r) := rfl

theorem natAbs_split (m : ℤ) :
    ((m.natAbs / 1000 : ℕ) : ℚ) * 1000 + ((m.natAbs % 1000 : ℕ) : ℚ) = (m.natAbs : ℚ) := by
  have h := Nat.div_add_mod m.natAbs 1000
  have h2 : ((1000 * (m.natAbs / 1000) + m.natAbs % 1000 : ℕ) : ℚ) = (m.natAbs : ℚ) := by
    exact_mod_cast congrArg (fun n : ℕ => (n : ℚ)) h
  push_cast at h2
  linarith

/-- Python float() recovers m/1000 from the fmt3 rendering of m
thousandths. -/
theorem pyFloat_render3 (m : ℤ) : pyFloat (render3 m) = some ((m : ℚ) / 1000) := by
  have hf : m.natAbs % 1000 < 1000 := Nat.mod_lt _ (by omega)
  obtain ⟨hmem, hzero, hpos⟩ := rstrip0_pad3 (m.natAbs % 1000) hf
  have hdig : ∀ c ∈ natDigits (m.natAbs / 1000), isDigitC c := natDigits_mem _
  have hcore : ∀ sgn : ℚ, pyFloatCore sgn (natDigits (m.natAbs / 1000) ++
      (if m.natAbs % 1000 = 0 then [] else '.' :: rstrip0 (pad3 (m.natAbs % 1000)))) =
      some (sgn * ((m.natAbs : ℚ) / 1000)) := by
    intro sgn
    by_cases hz : m.natAbs % 1000 = 0
    · rw [if_pos hz, List.append_nil,
        pyFloatCore_digits _ _ hdig (natDigits_ne_nil _), digitsToNat_natDigits]
      congr 1
      have h := Nat.div_add_mod m.natAbs 1000
      rw [hz, Nat.add_zero] at h
      congr 1
      rw [eq_div_iff (by norm_num : (1000 : ℚ) ≠ 0)]
      rw [show ((m.natAbs : ℚ)) = (((1000 * (m.natAbs / 1000) : ℕ)) : ℚ) by rw [h]]
      push_cast
      ring
    · obtain ⟨hne, hval⟩ := hpos hz
      rw [if_neg hz, pyFloatCore_digits_frac _ _ _ hdig (natDigits_ne_nil _) hmem hne,
        digitsToNat_natDigits, hval]
      congr 1
      congr 1
      rw [eq_div_iff (by norm_num : (1000 : ℚ) ≠ 0), add_mul,
        div_mul_eq_mul_div, mul_div_assoc, div_self (by norm_num : (1000 : ℚ) ≠ 0), mul_one]
      exact natAbs_split m
  by_cases hm : m < 0
  · have hshape := render3_shape m
    rw [if_pos hm] at hshape
    rw [hshape, List.singleton_append, List.cons_append, pyFloat_cons]
    rw [if_neg (by decide), if_pos rfl, hcore (-1)]
    congr 1
    have hq : ((m.natAbs : ℕ) : ℚ) = -(m : ℚ) := by
      rw [Int.cast_natAbs, abs_of_neg hm]
      push_cast
      ring
    rw [hq]
    ring
  · have hshape := render3_shape m
    rw [if_neg hm, List.nil_append] at hshape
    rcases hd : natDigits (m.natAbs / 1000) with _ | ⟨a, t⟩
    · exact absurd hd (natDigits_ne_nil _)
    · have ha : isDigitC a := by
        refine hdig a ?_
        rw [hd]
        simp
      have hfacts := digitc_facts a ha
      rw [hshape, hd, List.cons_append, pyFloat_cons]
      rw [if_neg hfacts.2.2.2.2.2.1, if_neg hfacts.2.2.2.2.2.2.1, ← List.cons_append, ← hd,
        hcore 1]
      congr 1
      have hq : ((m.natAbs : ℕ) : ℚ) = (m : ℚ) := by
        rw [Int.cast_natAbs, abs_of_nonneg (not_lt.mp hm)]
      rw [hq]
      ring

theorem dropWhile_head_not (p : Char → Bool) (l : Str) (c : Char) (fp : Str)
    (h : l.dropWhile p = c :: fp) : p c = false := by
  induction l with
  | nil => simp at h
  | cons a t ih =>
    rw [List.dropWhile_cons] at h
    by_cases ha : p a = true
    · rw [if_pos ha] at h
      exact ih h
    · rw [if_neg ha] at h
      injection h with h1 _
      rw [← h1]
      exact eq_false_of_ne_true ha

theorem all_false_of_mem (l : Str) (x : Char) (hx : x ∈ l) (h1 : x.isDigit = false) :
    ¬(l.all Char.isDigit = true) := by
  intro hall
  have := List.all_eq_true.mp hall x hx
  rw [h1] at this
  exact absurd this (by decide)

theorem pyFloatCore_none_of_mem (sgn : ℚ) (r : Str) (x : Char) (hx : x ∈ r)
    (h1 : x.isDigit = false) (h2 : x ≠ '.') : pyFloatCore sgn r = none := by
  have hx2 : x ∈ r.takeWhile (fun c => c != '.') ∨ x ∈ r.dropWhile (fun c => c != '.') := by
    rw [← List.mem_append, List.takeWhile_append_dropWhile]
    exact hx
  simp only [pyFloatCore]
  by_cases hdp : r.dropWhile (fun c => c != '.') = []
  · rw [if_pos hdp]
    have hip : x ∈ r.takeWhile (fun c => c != '.') := by
      rcases hx2 with h | h
      · exact h
      · rw [hdp] at h
        simp at h
    by_cases he : (r.takeWhile (fun c => c != '.')).isEmpty = true
    · rw [if_pos he]
    · rw [if_neg he, if_neg (all_false_of_mem _ x hip h1)]
  · rw [if_neg hdp]
    rcases hd : r.dropWhile (fun c => c != '.') with _ | ⟨hd0, fp0⟩
    · exact absurd hd hdp
    have hfp : x ∈ r.takeWhile (fun c => c != '.') ∨ x ∈ fp0 := by
      rcases hx2 with h | h
      · exact Or.inl h
      · rw [hd] at h
        rcases List.mem_cons.mp h with rfl | h
        · have := dropWhile_head_not _ _ _ _ hd
          simp at this
          exact absurd this h2
        · exact Or.inr h
    simp only [List.drop_succ_cons, List.drop_zero]
    by_cases hany : fp0.any (fun c => c == '.') = true
    · rw [if_pos hany]
    · rw [if_neg hany]
      by_cases hee : ((r.takeWhile (fun c => c != '.')).isEmpty && fp0.isEmpty) = true
      · rw [if_pos hee]
      · rw [if_neg hee]
        have hfalse : ¬(((r.takeWhile (fun c => c != '.')).all Char.isDigit &&
            fp0.all Char.isDigit) = true) := by
          rw [Bool.and_eq_true]
          rintro ⟨ha, hb⟩
          rcases hfp with h | h
          · exact all_false_of_mem _ x h h1 ha
          · exact all_false_of_mem _ x h h1 hb
        rw [if_neg hfalse]

theorem pyFloat_none_of_mem (l : Str) (x : Char) (hx : x ∈ l) (h1 : x.isDigit = false)
    (h2 : x ≠ '.') (h3 : x ≠ '+') (h4 : x ≠ '-') : pyFloat l = none := by
  cases l with
  | nil => simp at hx
  | cons a r =>
    rw [pyFloat_cons]
    rcases List.mem_cons.mp hx with rfl | hxr
    · rw [if_neg h3, if_neg h4]
      exact pyFloatCore_none_of_mem _ _ x (by simp) h1 h2
    · by_cases ha3 : a = '+'
      · rw [if_pos ha3]
        exact pyFloatCore_none_of_mem _ _ x hxr h1 h2
      · rw [if_neg ha3]
        by_cases ha4 : a = '-'
        · rw [if_pos ha4]
          exact pyFloatCore_none_of_mem _ _ x hxr h1 h2
        · rw [if_neg ha4]
          exact pyFloatCore_none_of_mem _ _ x (by simp [hxr]) h1 h2

/-- Definitional expansion of parse_val on a string cell. -/
theorem parse_val_str_eq (raw : Str) :
    parse_val (Cell.str raw) =
      (if pyStrip raw = [] then ((0 : ℚ), (0 : ℕ), false)
       else if lowerL (pyStrip raw) = ("nan").data then (0, 0, false)
       else if replCtoC (pyStrip raw) = ['C'] then (0, 1, true)
       else if upperL (replCtoC (pyStrip raw)) = ("N/A").data then (0, 0, true)
       else
         match pyFloat (replCtoC (pyStrip raw)) with
         | some q => (q, 0, true)
         | none =>
           if hasPlus (replCtoC (pyStrip raw)) then
             match pyFloat (pyStrip ((replCtoC (pyStrip raw)).takeWhile (fun c => c != '+'))) with
             | none => (0, 0, false)
             | some b =>
               if (removeSpaces (pyStrip (((replCtoC (pyStrip raw)).dropWhile
                     (fun c => c != '+')).drop 1))).getLast? = some 'C' then
                 (b, coefVal (removeSpaces (pyStrip (((replCtoC (pyStrip raw)).dropWhile
                     (fun c => c != '+')).drop 1))).dropLast, true)
               else if (removeSpaces (pyStrip (((replCtoC (pyStrip raw)).dropWhile
                     (fun c => c != '+')).drop 1))).getLast? = some 'n' then
                 (b, coefVal (removeSpaces (pyStrip (((replCtoC (pyStrip raw)).dropWhile
                     (fun c => c != '+')).drop 1))).dropLast, true)
               else (b, 0, true)
           else
             if (removeSpaces (replCtoC (pyStrip raw))).getLast? = some 'C' then
               (0, coefVal (removeSpaces (replCtoC (pyStrip raw))).dropLast, true)
             else if (removeSpaces (replCtoC (pyStrip raw))).getLast? = some 'n' then
               (0, coefVal (removeSpaces (replCtoC (pyStrip raw))).dropLast, true)
             else (0, 0, false)) := rfl

/-- Definitional expansion of parse_cell on a string cell. -/
theorem parse_cell_str_eq (raw : Str) :
    parse_cell (Cell.str raw) =
      (if pyStrip raw = [] then ((0 : ℚ), (0 : ℕ))
       else if lowerL (pyStrip raw) = ("nan").data then (0, 0)
       else if upperL (replCtoC (pyStrip raw)) = ("N/A").data then (0, 0)
       else if replCtoC (pyStrip raw) = ['C'] then (0, 1)
       else
         match pyFloat (replCtoC (pyStrip raw)) with
         | some q => (q, 0)
         | none =>
           if hasPlus (replCtoC (pyStrip raw)) then
             if (removeSpaces (pyStrip (((replCtoC (pyStrip raw)).dropWhile
                   (fun c => c != '+')).drop 1))).getLast? = some 'C' then
               ((pyFloat (pyStrip ((replCtoC (pyStrip raw)).takeWhile
                   (fun c => c != '+')))).getD 0,
                 coefVal (removeSpaces (pyStrip (((replCtoC (pyStrip raw)).dropWhile
                   (fun c => c != '+')).drop 1))).dropLast)
             else if (removeSpaces (pyStrip (((replCtoC (pyStrip raw)).dropWhile
                   (fun c => c != '+')).drop 1))).getLast? = some 'n' then
               ((pyFloat (pyStrip ((replCtoC (pyStrip raw)).takeWhile
                   (fun c => c != '+')))).getD 0,
                 coefVal (removeSpaces (pyStrip (((replCtoC (pyStrip raw)).dropWhile
                   (fun c => c != '+')).drop 1))).dropLast)
             else ((pyFloat (pyStrip ((replCtoC (pyStrip raw)).takeWhile
                 (fun c => c != '+')))).getD 0, 0)
           else
             if (removeSpaces (replCtoC (pyStrip raw))).getLast? = some 'C' &&
                 isDigits (removeSpaces (replCtoC (pyStrip raw))).dropLast then
               (0, digitsToNat (removeSpaces (replCtoC (pyStrip raw))).dropLast)
             else if (removeSpaces (replCtoC (pyStrip raw))).getLast? = some 'n' &&
                 isDigits (removeSpaces (replCtoC (pyStrip raw))).dropLast then
               (0, digitsToNat (removeSpaces (replCtoC (pyStrip raw))).dropLast)
             else (0, 0)) := rfl

/-- The common precondition checks of parse_val / parse_cell all pass
through unchanged for a string whose head is a digit or a minus sign, with
no lowercase c and no whitespace at the ends. -/
theorem parse_gate (S : Str)
    (hne : S ≠ [])
    (hhead : ∀ c, S.head? = some c → isDigitC c ∨ c = '-')
    (hlast : ∀ c, S.getLast? = some c → c.isWhitespace = false)
    (hnoc : ∀ c ∈ S, c ≠ 'c') :
    pyStrip S = S ∧ replCtoC S = S ∧ lowerL S ≠ ("nan").data ∧ S ≠ ['C'] ∧
      upperL S ≠ ("N/A").data := by
  rcases hS : S with _ | ⟨c0, S'⟩
  · exact absurd hS hne
  rw [← hS]
  have hc0 : isDigitC c0 ∨ c0 = '-' := hhead c0 (by rw [hS]; rfl)
  have hstrip : pyStrip S = S := by
    refine pyStrip_eq_self S ?_ hlast
    intro c hc
    rw [hS] at hc
    injection hc with hc
    rw [← hc]
    rcases hc0 with h | rfl
    · exact (digitc_facts c0 h).2.2.2.1
    · decide
  have hrepl : replCtoC S = S := replCtoC_eq_self S hnoc
  refine ⟨hstrip, hrepl, ?_, ?_, ?_⟩
  · intro heq
    have : (lowerL S).head? = some 'n' := by
      rw [heq]
      rfl
    rw [lowerL, List.head?_map, hS] at this
    simp only [List.head?_cons, Option.map_some'] at this
    injection this with this
    rcases hc0 with h | rfl
    · rw [(digitc_facts c0 h).2.1] at this
      exact (digitc_facts c0 h).2.2.2.2.2.2.2.2.2.2.1 this
    · exact absurd this (by decide)
  · intro heq
    rw [hS] at heq
    injection heq with h1 _
    rcases hc0 with h | rfl
    · exact (digitc_facts c0 h).2.2.2.2.2.2.2.2.2.1 h1
    · exact absurd h1 (by decide)
  · intro heq
    have : (upperL S).head? = some 'N' := by
      rw [heq]
      rfl
    rw [upperL, List.head?_map, hS] at this
    simp only [List.head?_cons, Option.map_some'] at this
    injection this with this
    rcases hc0 with h | rfl
    · rw [(digitc_facts c0 h).2.2.1] at this
      exact (digitc_facts c0 h).2.2.2.2.2.2.2.2.2.2.2 this
    · exact absurd this (by decide)

theorem isDigitC_of_isDigit (c : Char) (h : c.isDigit = true) : isDigitC c := by
  have hb : 48 ≤ c.toNat ∧ c.toNat ≤ 57 := by
    simp only [Char.isDigit, Bool.and_eq_true, decide_eq_true_eq] at h
    exact ⟨h.1, h.2⟩
  refine ⟨c.toNat - 48, by omega, ?_⟩
  rw [digitChar]
  have h3 : 48 + (c.toNat - 48) = c.toNat := by omega
  rw [h3, Char.ofNat_toNat]

theorem decChar_facts (c : Char) (h : decChar c = true) :
    c.isWhitespace = false ∧ c.toLower = c ∧ c.toUpper = c ∧ c ≠ 'c' ∧ c ≠ 'C' ∧
      c ≠ 'n' ∧ c ≠ 'N' ∧ c ≠ '+' ∧ c ≠ ' ' := by
  have h' : (c.isDigit = true ∨ c = '.') ∨ c = '-' := by
    simpa [decChar, Bool.or_eq_true, beq_iff_eq] using h
  rcases h' with (hd | rfl) | rfl
  · have hf := digitc_facts c (isDigitC_of_isDigit c hd)
    exact ⟨hf.2.2.2.1, hf.2.1, hf.2.2.1, hf.2.2.2.2.2.2.2.2.1, hf.2.2.2.2.2.2.2.2.2.1,
      hf.2.2.2.2.2.2.2.2.2.2.1, hf.2.2.2.2.2.2.2.2.2.2.2, hf.2.2.2.2.2.1, hf.2.2.2.2.2.2.2.1⟩
  · exact ⟨by decide, by decide, by decide, by decide, by decide, by decide, by decide,
      by decide, by decide⟩
  · exact ⟨by decide, by decide, by decide, by decide, by decide, by decide, by decide,
      by decide, by decide⟩

/-- Every precondition check of parse_val passes through unchanged for a
nonempty string over the decimal alphabet, and neither the plus-separator
branch nor a trailing-marker branch can fire. -/
theorem decAlpha_gate (S : Str) (hne : S ≠ []) (hall : S.all decChar = true) :
    pyStrip S = S ∧ replCtoC S = S ∧ lowerL S ≠ ("nan").data ∧ S ≠ ['C'] ∧
      upperL S ≠ ("N/A").data ∧ hasPlus S = false ∧ removeSpaces S = S ∧
      S.getLast? ≠ some 'C' ∧ S.getLast? ≠ some 'n' := by
  have hmem : ∀ c ∈ S, decChar c = true := fun c hc => List.all_eq_true.mp hall c hc
  rcases hS : S with _ | ⟨c0, S'⟩
  · exact absurd hS hne
  rw [← hS]
  have hc0 : decChar c0 = true := hmem c0 (by rw [hS]; exact List.mem_cons_self _ _)
  have hstrip : pyStrip S = S := by
    refine pyStrip_eq_self S ?_ ?_
    · intro c hc
      rw [hS, List.head?_cons, Option.some_inj] at hc
      rw [← hc]
      exact (decChar_facts c0 hc0).1
    · intro c hc
      exact (decChar_facts c (hmem c (getLast?_mem_self S c hc))).1
  have hrepl : replCtoC S = S :=
    replCtoC_eq_self S (fun c hc => (decChar_facts c (hmem c hc)).2.2.2.1)
  refine ⟨hstrip, hrepl, ?_, ?_, ?_, ?_, ?_, ?_, ?_⟩
  · intro heq
    have hh : (lowerL S).head? = some 'n' := by
      rw [heq]
      rfl
    rw [lowerL, List.head?_map, hS] at hh
    simp only [List.head?_cons, Option.map_some'] at hh
    rw [Option.some_inj] at hh
    rw [(decChar_facts c0 hc0).2.1] at hh
    exact (decChar_facts c0 hc0).2.2.2.2.2.1 hh
  · intro heq
    have hmm : decChar 'C' = true := hmem 'C' (by rw [heq]; exact List.mem_cons_self _ _)
    exact absurd hmm (by decide)
  · intro heq
    have hh : (upperL S).head? = some 'N' := by
      rw [heq]
      rfl
    rw [upperL, List.head?_map, hS] at hh
    simp only [List.head?_cons, Option.map_some'] at hh
    rw [Option.some_inj] at hh
    rw [(decChar_facts c0 hc0).2.2.1] at hh
    exact (decChar_facts c0 hc0).2.2.2.2.2.2.1 hh
  · exact hasPlus_false S (fun c hc => (decChar_facts c (hmem c hc)).2.2.2.2.2.2.2.1)
  · exact removeSpaces_eq_self S (fun c hc => (decChar_facts c (hmem c hc)).2.2.2.2.2.2.2.2)
  · intro heq
    exact (decChar_facts 'C' (hmem 'C' (getLast?_mem_self S 'C' heq))).2.2.2.2.1 rfl
  · intro heq
    exact (decChar_facts 'n' (hmem 'n' (getLast?_mem_self S 'n' heq))).2.2.2.2.2.1 rfl

/-- parse_val on a plain fmt3 rendering: a numeric value with no censored
count. -/
theorem parse_val_render3 (m : ℤ) :
    parse_val (Cell.str (render3 m)) = ((m : ℚ) / 1000, 0, true) := by
  have hlast : ∀ c, (render3 m).getLast? = some c → c.isWhitespace = false := by
    intro c hc
    exact (digitc_facts c (render3_getLast m c hc)).2.2.2.1
  have hnoc : ∀ c ∈ render3 m, c ≠ 'c' := by
    intro c hc
    rcases render3_mem m c hc with h | rfl | rfl
    · exact (digitc_facts c h).2.2.2.2.2.2.2.2.1
    · decide
    · decide
  obtain ⟨hstrip, hrepl, hnan, hC, hNA⟩ :=
    parse_gate (render3 m) (render3_ne_nil m) (render3_head m) hlast hnoc
  rw [parse_val_str_eq, hstrip, hrepl]
  rw [if_neg (render3_ne_nil m), if_neg hnan, if_neg hC, if_neg hNA, pyFloat_render3]

theorem head?_append_left (l1 l2 : Str) (h : l1 ≠ []) : (l1 ++ l2).head? = l1.head? := by
  cases l1 with
  | nil => exact absurd rfl h
  | cons a t => rfl

theorem coefVal_natDigits (k : ℕ) : coefVal (natDigits k) = k := by
  rw [coefVal, if_neg (natDigits_ne_nil k)]
  rw [if_pos ?hd, digitsToNat_natDigits]
  case hd => rw [isDigits_natDigits]

theorem coefVal_nil : coefVal [] = 1 := rfl

theorem mk_facts (mk : Char) (hmk : mk = 'C' ∨ mk = 'n') :
    mk.isWhitespace = false ∧ mk ≠ 'c' ∧ mk ≠ ' ' ∧ mk ≠ '+' ∧ mk.isDigit = false ∧
      mk ≠ '.' ∧ mk ≠ '-' := by
  rcases hmk with rfl | rfl <;>
    exact ⟨rfl, by decide, by decide, by decide, rfl, by decide, by decide⟩

theorem coef_srcs (coef : Str) (hcoef : coef = [] ∨ ∃ k, coef = natDigits k) :
    ∀ c ∈ coef, isDigitC c := by
  rcases hcoef with rfl | ⟨k, rfl⟩
  · intro c hc
    simp at hc
  · exact natDigits_mem k

/-- Parsing of the censored-annotation shape "<base> + <coef><marker>"
written by format_sum, for both markers and any digit coefficient. -/
theorem parse_annotated_parts (m : ℤ) (coef : Str)
    (hcoef : coef = [] ∨ ∃ k, coef = natDigits k) (mk : Char) (hmk : mk = 'C' ∨ mk = 'n') :
    pyStrip (render3 m ++ [' ', '+', ' '] ++ coef ++ [mk]) =
        render3 m ++ [' ', '+', ' '] ++ coef ++ [mk] ∧
      replCtoC (render3 m ++ [' ', '+', ' '] ++ coef ++ [mk]) =
        render3 m ++ [' ', '+', ' '] ++ coef ++ [mk] ∧
      lowerL (render3 m ++ [' ', '+', ' '] ++ coef ++ [mk]) ≠ ("nan").data ∧
      (render3 m ++ [' ', '+', ' '] ++ coef ++ [mk]) ≠ ['C'] ∧
      upperL (render3 m ++ [' ', '+', ' '] ++ coef ++ [mk]) ≠ ("N/A").data ∧
      pyFloat (render3 m ++ [' ', '+', ' '] ++ coef ++ [mk]) = none ∧
      hasPlus (render3 m ++ [' ', '+', ' '] ++ coef ++ [mk]) = true ∧
      pyStrip ((render3 m ++ [' ', '+', ' '] ++ coef ++ [mk]).takeWhile
        (fun c => c != '+')) = render3 m ∧
      removeSpaces (pyStrip (((render3 m ++ [' ', '+', ' '] ++ coef ++ [mk]).dropWhile
        (fun c => c != '+')).drop 1)) = coef ++ [mk] := by
  obtain ⟨hmkws, hmkc, hmksp, hmkplus, hmkdig, hmkdot, hmkminus⟩ := mk_facts mk hmk
  have hcoefd := coef_srcs coef hcoef
  have hSshape : render3 m ++ [' ', '+', ' '] ++ coef ++ [mk] =
      render3 m ++ (' ' :: '+' :: ' ' :: (coef ++ [mk])) := by
    simp
  have hne : render3 m ++ [' ', '+', ' '] ++ coef ++ [mk] ≠ [] := by
    simp
  have hmem : ∀ c ∈ render3 m ++ [' ', '+', ' '] ++ coef ++ [mk],
      (isDigitC c ∨ c = '-' ∨ c = '.') ∨ c = ' ' ∨ c = '+' ∨ c = mk := by
    intro c hc
    simp only [List.append_assoc, List.mem_append, List.mem_cons, List.mem_singleton,
      List.not_mem_nil, or_false] at hc
    rcases hc with hc | hc | hc | hc
    · exact Or.inl (render3_mem m c hc)
    · rcases hc with rfl | rfl | rfl
      · right
        left
        rfl
      · right
        right
        left
        rfl
      · right
        left
        rfl
    · exact Or.inl (Or.inl (hcoefd c hc))
    · right
      right
      right
      exact hc
  have hlast : ∀ c, (render3 m ++ [' ', '+', ' '] ++ coef ++ [mk]).getLast? = some c →
      c.isWhitespace = false := by
    intro c hc
    rw [List.getLast?_concat] at hc
    injection hc with hc
    rw [← hc, hmkws]
  have hhead : ∀ c, (render3 m ++ [' ', '+', ' '] ++ coef ++ [mk]).head? = some c →
      isDigitC c ∨ c = '-' := by
    intro c hc
    rw [head?_append_left _ _ (by simp), head?_append_left _ _ (by simp),
      head?_append_left _ _ (render3_ne_nil m)] at hc
    exact render3_head m c hc
  have hnoc : ∀ c ∈ render3 m ++ [' ', '+', ' '] ++ coef ++ [mk], c ≠ 'c' := by
    intro c hc
    rcases hmem c hc with (h | rfl | rfl) | rfl | rfl | rfl
    · exact (digitc_facts c h).2.2.2.2.2.2.2.2.1
    · decide
    · decide
    · decide
    · decide
    · exact hmkc
  obtain ⟨hstrip, hrepl, hnan, hCne, hNA⟩ := parse_gate _ hne hhead hlast hnoc
  refine ⟨hstrip, hrepl, hnan, hCne, hNA, ?_, ?_, ?_, ?_⟩
  · refine pyFloat_none_of_mem _ ' ' ?_ rfl (by decide) (by decide) (by decide)
    simp
  · refine hasPlus_true_of_mem _ ?_
    simp
  · have hr3 : ∀ c ∈ render3 m, (c != '+') = true := by
      intro c hc
      rcases render3_mem m c hc with h | rfl | rfl
      · rw [bne_iff_ne]
        exact (digitc_facts c h).2.2.2.2.2.1
      · decide
      · decide
    rw [hSshape, takeWhile_append_all _ _ _ hr3, List.takeWhile_cons]
    rw [if_pos (by decide), takeWhile_cons_stop _ _ _ (by decide)]
    have hlast3 : ∀ c, (render3 m).getLast? = some c → c.isWhitespace = false := by
      intro c hc
      exact (digitc_facts c (render3_getLast m c hc)).2.2.2.1
    have hhead3 : ∀ c, (render3 m).head? = some c → c.isWhitespace = false := by
      intro c hc
      rcases render3_head m c hc with h | rfl
      · exact (digitc_facts c h).2.2.2.1
      · decide
    exact pyStrip_append_space _ (render3_ne_nil m) hhead3 hlast3
  · have hr3 : ∀ c ∈ render3 m, (c != '+') = true := by
      intro c hc
      rcases render3_mem m c hc with h | rfl | rfl
      · rw [bne_iff_ne]
        exact (digitc_facts c h).2.2.2.2.2.1
      · decide
      · decide
    rw [hSshape, dropWhile_append_all _ _ _ hr3, List.dropWhile_cons]
    rw [if_pos (by decide), dropWhile_cons_stop _ _ _ (by decide)]
    simp only [List.drop_succ_cons, List.drop_zero]
    rw [pyStrip_cons_space]
    have hstripD : pyStrip (coef ++ [mk]) = coef ++ [mk] := by
      refine pyStrip_eq_self _ ?_ ?_
      · intro c hc
        rcases hd : coef with _ | ⟨a, t⟩
        · rw [hd] at hc
          simp only [List.nil_append, List.head?_cons, Option.some_inj] at hc
          rw [← hc, hmkws]
        · rw [hd, List.cons_append, List.head?_cons, Option.some_inj] at hc
          have ha : isDigitC a := hcoefd a (by rw [hd]; simp)
          rw [← hc]
          exact (digitc_facts a ha).2.2.2.1
      · intro c hc
        rw [List.getLast?_concat, Option.some_inj] at hc
        rw [← hc, hmkws]
    rw [hstripD]
    refine removeSpaces_eq_self _ ?_
    intro c hc
    rcases List.mem_append.mp hc with hc | hc
    · exact (digitc_facts c (hcoefd c hc)).2.2.2.2.2.2.2.1
    · rw [List.mem_singleton] at hc
      rw [hc]
      exact hmksp

/-- parse_val on "<base> + <coef><marker>". -/
theorem parse_val_annotated (m : ℤ) (coef : Str)
    (hcoef : coef = [] ∨ ∃ k, coef = natDigits k) (mk : Char) (hmk : mk = 'C' ∨ mk = 'n') :
    parse_val (Cell.str (render3 m ++ [' ', '+', ' '] ++ coef ++ [mk])) =
      ((m : ℚ) / 1000, coefVal coef, true) := by
  obtain ⟨hstrip, hrepl, hnan, hC, hNA, hfloat, hplus, hbase, hrest⟩ :=
    parse_annotated_parts m coef hcoef mk hmk
  rw [parse_val_str_eq, hstrip, hrepl]
  rw [if_neg (by simp), if_neg hnan, if_neg hC, if_neg hNA, hfloat, if_pos hplus, hbase,
    pyFloat_render3, hrest]
  rw [List.getLast?_concat, List.dropLast_concat]
  rcases hmk with rfl | rfl <;> rfl

/-- parse_cell on "<base> + <coef><marker>". -/
theorem parse_cell_annotated (m : ℤ) (coef : Str)
    (hcoef : coef = [] ∨ ∃ k, coef = natDigits k) (mk : Char) (hmk : mk = 'C' ∨ mk = 'n') :
    parse_cell (Cell.str (render3 m ++ [' ', '+', ' '] ++ coef ++ [mk])) =
      ((m : ℚ) / 1000, coefVal coef) := by
  obtain ⟨hstrip, hrepl, hnan, hC, hNA, hfloat, hplus, hbase, hrest⟩ :=
    parse_annotated_parts m coef hcoef mk hmk
  rw [parse_cell_str_eq, hstrip, hrepl]
  rw [if_neg (by simp), if_neg hnan, if_neg hNA, if_neg hC, hfloat, if_pos hplus, hrest,
    hbase, pyFloat_render3]
  rw [List.getLast?_concat, List.dropLast_concat]
  rcases hmk with rfl | rfl <;> rfl

/-- Shared facts for the bare "<count><marker>" shapes. -/
theorem parse_bare_parts (k : ℕ) (mk : Char) (hmk : mk = 'C' ∨ mk = 'n') :
    pyStrip (natDigits k ++ [mk]) = natDigits k ++ [mk] ∧
      replCtoC (natDigits k ++ [mk]) = natDigits k ++ [mk] ∧
      lowerL (natDigits k ++ [mk]) ≠ ("nan").data ∧
      (natDigits k ++ [mk]) ≠ ['C'] ∧
      upperL (natDigits k ++ [mk]) ≠ ("N/A").data ∧
      pyFloat (natDigits k ++ [mk]) = none ∧
      hasPlus (natDigits k ++ [mk]) = false ∧
      removeSpaces (natDigits k ++ [mk]) = natDigits k ++ [mk] := by
  obtain ⟨hmkws, hmkc, hmksp, hmkplus, hmkdig, hmkdot, hmkminus⟩ := mk_facts mk hmk
  have hne : natDigits k ++ [mk] ≠ [] := by simp
  have hhead : ∀ c, (natDigits k ++ [mk]).head? = some c → isDigitC c ∨ c = '-' := by
    intro c hc
    rw [head?_append_left _ _ (natDigits_ne_nil k)] at hc
    rcases hd : natDigits k with _ | ⟨a, t⟩
    · exact absurd hd (natDigits_ne_nil k)
    · rw [hd, List.head?_cons, Option.some_inj] at hc
      refine Or.inl (natDigits_mem k c ?_)
      rw [hd, ← hc]
      simp
  have hlast : ∀ c, (natDigits k ++ [mk]).getLast? = some c → c.isWhitespace = false := by
    intro c hc
    rw [List.getLast?_concat, Option.some_inj] at hc
    rw [← hc, hmkws]
  have hnoc : ∀ c ∈ natDigits k ++ [mk], c ≠ 'c' := by
    intro c hc
    rcases List.mem_append.mp hc with hc | hc
    · exact (digitc_facts c (natDigits_mem k c hc)).2.2.2.2.2.2.2.2.1
    · rw [List.mem_singleton] at hc
      rw [hc]
      exact hmkc
  obtain ⟨hstrip, hrepl, hnan, hCne, hNA⟩ := parse_gate _ hne hhead hlast hnoc
  refine ⟨hstrip, hrepl, hnan, hCne, hNA, ?_, ?_, ?_⟩
  · refine pyFloat_none_of_mem _ mk (by simp) hmkdig hmkdot hmkplus hmkminus
  · refine hasPlus_false _ ?_
    intro c hc
    rcases List.mem_append.mp hc with hc | hc
    · exact (digitc_facts c (natDigits_mem k c hc)).2.2.2.2.2.1
    · rw [List.mem_singleton] at hc
      rw [hc]
      exact hmkplus
  · refine removeSpaces_eq_self _ ?_
    intro c hc
    rcases List.mem_append.mp hc with hc | hc
    · exact (digitc_facts c (natDigits_mem k c hc)).2.2.2.2.2.2.2.1
    · rw [List.mem_singleton] at hc
      rw [hc]
      exact hmksp

/-- parse_val on the bare "<count><marker>" shape. -/
theorem parse_val_bare (k : ℕ) (mk : Char) (hmk : mk = 'C' ∨ mk = 'n') :
    parse_val (Cell.str (natDigits k ++ [mk])) = (0, k, true) := by
  obtain ⟨hstrip, hrepl, hnan, hC, hNA, hfloat, hplus, hspaces⟩ := parse_bare_parts k mk hmk
  rw [parse_val_str_eq, hstrip, hrepl]
  rw [if_neg (by simp), if_neg hnan, if_neg hC, if_neg hNA, hfloat,
    if_neg (by rw [hplus]; exact Bool.false_ne_true), hspaces]
  rw [List.getLast?_concat, List.dropLast_concat, coefVal_natDigits]
  rcases hmk with rfl | rfl <;> rfl

/-- parse_cell on the bare "<count><marker>" shape. -/
theorem parse_cell_bare (k : ℕ) (mk : Char) (hmk : mk = 'C' ∨ mk = 'n') :
    parse_cell (Cell.str (natDigits k ++ [mk])) = (0, k) := by
  obtain ⟨hstrip, hrepl, hnan, hC, hNA, hfloat, hplus, hspaces⟩ := parse_bare_parts k mk hmk
  rw [parse_cell_str_eq, hstrip, hrepl]
  rw [if_neg (by simp), if_neg hnan, if_neg hNA, if_neg hC, hfloat,
    if_neg (by rw [hplus]; exact Bool.false_ne_true), hspaces]
  rw [List.getLast?_concat, List.dropLast_concat, isDigits_natDigits, digitsToNat_natDigits]
  rcases hmk with rfl | rfl <;> rfl

theorem floor_half : ⌊(1 : ℚ) / 2⌋ = 0 := by
  rw [Int.floor_eq_zero_iff]
  constructor <;> norm_num

/-- On an exact 3-decimal value the %.3f rounding picks exactly the
numerator of thousandths. -/
theorem rnd3_thousandths (m : ℤ) : rnd3 ((m : ℚ) / 1000) = m := by
  rw [rnd3, div_mul_cancel₀ _ (by norm_num : (1000 : ℚ) ≠ 0), add_comm, Int.floor_add_int,
    floor_half, zero_add]

theorem fmt3L_thousandths (m : ℤ) : fmt3L ((m : ℚ) / 1000) = render3 m := by
  rw [fmt3L, rnd3_thousandths]

theorem fmt3L_zero : fmt3L 0 = ['0'] := by
  rw [show (0 : ℚ) = ((0 : ℤ) : ℚ) / 1000 by norm_num, fmt3L_thousandths]
  decide

/-- Accumulated form of the checksum loop over Annotated Values. -/
theorem sumAV_fold (vs : List AV) (b0 : ℚ) (k0 : ℕ) (h0 : Bool) :
    vs.foldl sumStep (b0, k0, h0) =
      (b0 + (vs.map avBase).sum, k0 + (vs.map avCount).sum, h0 || vs.any avPresent) := by
  induction vs generalizing b0 k0 h0 with
  | nil => simp
  | cons v t ih =>
    rcases v with _ | b | ⟨b, k⟩
    · rw [List.foldl_cons, show sumStep (b0, k0, h0) AV.absent = (b0, k0, h0) from rfl, ih]
      simp [avBase, avCount, avPresent]
    · rw [List.foldl_cons,
        show sumStep (b0, k0, h0) (AV.numeric b) = (b0 + b, k0 + 0, true) from rfl, ih]
      simp [avBase, avCount, avPresent, add_assoc]
    · rw [List.foldl_cons,
        show sumStep (b0, k0, h0) (AV.censored b k) = (b0 + b, k0 + k, true) from rfl, ih]
      simp [avBase, avCount, avPresent, add_assoc]

theorem sumAV_closed (vs : List AV) :
    sumAV vs = classifyTriple ((vs.map avBase).sum, (vs.map avCount).sum, vs.any avPresent) := by
  rw [sumAV, sumAV_fold]
  simp

theorem classify_censored (b : ℚ) (k : ℕ) (hk : k ≠ 0) :
    classifyTriple (b, k, true) = AV.censored b k := by
  simp only [classifyTriple]
  rw [if_neg (by decide), if_neg hk]

/-- C2: for every Annotated Value produced by the system's own aggregation
(Numeric, Censored with count at least 1, or Absent, base an exact
3-decimal value), parsing the formatted cell returns the value exactly,
on both base and censoring count. -/
theorem C2_parse_format_roundtrip (v : AV)
    (hv : v = AV.absent ∨ (∃ m : ℤ, v = AV.numeric ((m : ℚ) / 1000)) ∨
      (∃ m : ℤ, ∃ k : ℕ, 1 ≤ k ∧ v = AV.censored ((m : ℚ) / 1000) k)) :
    parseAV (formatCell v) = v := by
  rcases hv with rfl | ⟨m, rfl⟩ | ⟨m, k, hk, rfl⟩
  · rfl
  · rw [formatCell, fmt3L_thousandths, parseAV, parse_val_render3]
    rfl
  · rw [formatCell, parseAV]
    rcases Nat.lt_or_ge k 2 with hk2 | hk2
    · have hk1 : k = 1 := by omega
      subst hk1
      rw [format_sumL, if_neg (by omega), if_pos rfl, fmt3L_thousandths]
      rw [show render3 m ++ (" + C").data = render3 m ++ [' ', '+', ' '] ++ [] ++ ['C'] by simp]
      rw [parse_val_annotated m [] (Or.inl rfl) 'C' (Or.inl rfl)]
      rfl
    · rw [format_sumL, if_neg (by omega), if_neg (by omega), fmt3L_thousandths]
      rw [show render3 m ++ (" + ").data ++ natDigits k ++ ['C'] =
        render3 m ++ [' ', '+', ' '] ++ natDigits k ++ ['C'] by simp]
      rw [parse_val_annotated m (natDigits k) (Or.inr ⟨k, rfl⟩) 'C' (Or.inl rfl),
        coefVal_natDigits]
      exact classify_censored _ k (by omega)

theorem C2_parse_format_roundtrip_witness :
    parseAV (formatCell (AV.censored (25 / 2) 2)) = AV.censored (25 / 2) 2 :=
  C2_parse_format_roundtrip (AV.censored (25 / 2) 2)
    (Or.inr (Or.inr ⟨12500, 2, by norm_num,
      by rw [show ((12500 : ℤ) : ℚ) / 1000 = 25 / 2 by norm_num]⟩))

/-- C10: the legacy lower-case n censoring marker parses exactly like the
C marker in all three shapes "<base> + n", "<base> + <count>n" and
"<count>n", with the count defaulting to 1 when the marker has no leading
digits; parse_cell agrees on the annotated shapes. -/
theorem C10_legacy_n_marker (m : ℤ) (k : ℕ) :
    (parse_val (Cell.str (render3 m ++ [' ', '+', ' ', 'n'])) = ((m : ℚ) / 1000, 1, true) ∧
      parse_val (Cell.str (render3 m ++ [' ', '+', ' ', 'n'])) =
        parse_val (Cell.str (render3 m ++ [' ', '+', ' ', 'C']))) ∧
    (parse_val (Cell.str (render3 m ++ [' ', '+', ' '] ++ natDigits k ++ ['n'])) =
        ((m : ℚ) / 1000, k, true) ∧
      parse_val (Cell.str (render3 m ++ [' ', '+', ' '] ++ natDigits k ++ ['n'])) =
        parse_val (Cell.str (render3 m ++ [' ', '+', ' '] ++ natDigits k ++ ['C']))) ∧
    (parse_val (Cell.str (natDigits k ++ ['n'])) = (0, k, true) ∧
      parse_val (Cell.str (natDigits k ++ ['n'])) =
        parse_val (Cell.str (natDigits k ++ ['C']))) ∧
    (parse_cell (Cell.str (render3 m ++ [' ', '+', ' '] ++ natDigits k ++ ['n'])) =
        parse_cell (Cell.str (render3 m ++ [' ', '+', ' '] ++ natDigits k ++ ['C'])) ∧
      parse_cell (Cell.str (natDigits k ++ ['n'])) =
        parse_cell (Cell.str (natDigits k ++ ['C']))) := by
  have hshape : render3 m ++ [' ', '+', ' ', 'n'] =
      render3 m ++ [' ', '+', ' '] ++ [] ++ ['n'] := by simp
  have hshapeC : render3 m ++ [' ', '+', ' ', 'C'] =
      render3 m ++ [' ', '+', ' '] ++ [] ++ ['C'] := by simp
  refine ⟨⟨?_, ?_⟩, ⟨?_, ?_⟩, ⟨?_, ?_⟩, ?_, ?_⟩
  · rw [hshape, parse_val_annotated m [] (Or.inl rfl) 'n' (Or.inr rfl)]
    rfl
  · rw [hshape, hshapeC, parse_val_annotated m [] (Or.inl rfl) 'n' (Or.inr rfl),
      parse_val_annotated m [] (Or.inl rfl) 'C' (Or.inl rfl)]
  · rw [parse_val_annotated m (natDigits k) (Or.inr ⟨k, rfl⟩) 'n' (Or.inr rfl),
      coefVal_natDigits]
  · rw [parse_val_annotated m (natDigits k) (Or.inr ⟨k, rfl⟩) 'n' (Or.inr rfl),
      parse_val_annotated m (natDigits k) (Or.inr ⟨k, rfl⟩) 'C' (Or.inl rfl)]
  · rw [parse_val_bare k 'n' (Or.inr rfl)]
  · rw [parse_val_bare k 'n' (Or.inr rfl), parse_val_bare k 'C' (Or.inl rfl)]
  · rw [parse_cell_annotated m (natDigits k) (Or.inr ⟨k, rfl⟩) 'n' (Or.inr rfl),
      parse_cell_annotated m (natDigits k) (Or.inr ⟨k, rfl⟩) 'C' (Or.inl rfl)]
  · rw [parse_cell_bare k 'n' (Or.inr rfl), parse_cell_bare k 'C' (Or.inl rfl)]

/-- C1 counterexample: in the regional aggregation loop of
build_tam_regional_wide_csvs every sequence of cells is rendered with
format_sum, so a column where every municipality is Absent (pd.NA)
produces the string "0", not an Absent cell as the claim requires. -/
theorem C1_regional_all_absent_cex : regionalAggCell [Cell.na, Cell.na] = ['0'] := by
  rw [regionalAggCell]
  simp only [List.foldl_cons, List.foldl_nil,
    show parse_cell Cell.na = ((0 : ℚ), (0 : ℕ)) from rfl]
  rw [format_sumL]
  norm_num
  exact fmt3L_zero

/-- C1 (amended): the checksum-row Sum of _append_checksum_row behaves as
the claim states: Absent entries are skipped, an all-Absent (or empty)
sequence yields Absent, and otherwise the result is Numeric on the summed
bases when no entry is censored and Censored with independently summed
bases and counts when one is; the regional aggregation loop instead
renders an all-Absent sequence as the numeric string "0". -/
theorem C1_sum_skips_absent_amended (vs : List AV)
    (hwf : ∀ b k, AV.censored b k ∈ vs → 1 ≤ k) :
    (∀ l1 l2, vs = l1 ++ AV.absent :: l2 → sumAV vs = sumAV (l1 ++ l2)) ∧
    ((∀ v ∈ vs, v = AV.absent) → sumAV vs = AV.absent) ∧
    ((∃ v ∈ vs, v ≠ AV.absent) → (∀ b k, AV.censored b k ∉ vs) →
      sumAV vs = AV.numeric ((vs.map avBase).sum)) ∧
    ((∃ b k, AV.censored b k ∈ vs) →
      sumAV vs = AV.censored ((vs.map avBase).sum) ((vs.map avCount).sum)) := by
  refine ⟨?_, ?_, ?_, ?_⟩
  · intro l1 l2 h
    subst h
    rw [sumAV_closed, sumAV_closed]
    simp [avBase, avCount, avPresent]
  · intro hall
    rw [sumAV_closed]
    have hany : vs.any avPresent = false := by
      rw [List.any_eq_false]
      intro v hv
      rw [hall v hv]
      decide
    rw [hany]
    simp only [classifyTriple]
    rw [if_pos trivial]
  · rintro ⟨v, hv, hvne⟩ hnoc
    rw [sumAV_closed]
    have hany : vs.any avPresent = true := by
      rw [List.any_eq_true]
      refine ⟨v, hv, ?_⟩
      cases v with
      | absent => exact absurd rfl hvne
      | numeric b => rfl
      | censored b k => rfl
    have hcnt : (vs.map avCount).sum = 0 := by
      refine List.sum_eq_zero ?_
      intro x hx
      rcases List.mem_map.mp hx with ⟨u, hu, rfl⟩
      cases u with
      | absent => rfl
      | numeric b => rfl
      | censored b k => exact absurd hu (hnoc b k)
    rw [hany, hcnt]
    simp [classifyTriple]
  · rintro ⟨b, k, hmem⟩
    rw [sumAV_closed]
    have hany : vs.any avPresent = true := by
      rw [List.any_eq_true]
      exact ⟨AV.censored b k, hmem, rfl⟩
    have hk1 : 1 ≤ k := hwf b k hmem
    have hle : k ≤ (vs.map avCount).sum := by
      refine List.single_le_sum (fun x _ => Nat.zero_le x) k ?_
      exact List.mem_map.mpr ⟨AV.censored b k, hmem, rfl⟩
    rw [hany]
    exact classify_censored _ _ (by omega)

theorem C1_sum_skips_absent_amended_witness :
    sumAV [AV.numeric 2, AV.absent, AV.censored 3 1] = AV.censored 5 1 := by
  have h := (C1_sum_skips_absent_amended [AV.numeric 2, AV.absent, AV.censored 3 1]
    (by
      intro b k hk
      simp only [List.mem_cons, List.not_mem_nil, or_false] at hk
      rcases hk with hk | hk | hk
      · exact absurd hk (by simp)
      · exact absurd hk (by simp)
      · rw [AV.censored.injEq] at hk
        omega)).2.2.2 ⟨3, 1, by simp⟩
  rw [h]
  norm_num [avBase, avCount]

/-- C8 counterexample: parse_val maps the not-applicable marker "N/A" to
(0, 0, True) — a present Numeric(0) cell (line 41-42 of src/main.py) — so
the claim that the literal not-applicable marker parses to Absent fails. -/
theorem C8_not_applicable_marker_cex :
    parseAV (Cell.str ("N/A").data) = AV.numeric 0 ∧ AV.numeric 0 ≠ AV.absent := by
  constructor
  · rfl
  · intro h
    exact absurd h (by simp)

/-- C8 (amended): parse_val maps a missing cell, a blank string and a
nan literal to Absent (had_value = false); over strings of decimal
characters (ASCII digits, the dot and the minus sign) — on which Python's
float() grammar coincides with the positional decimal grammar and no
separator, marker or normalisation rule can fire — a string float()
rejects parses to Absent and a string float() accepts parses to the
present numeric it denotes; but the literal not-applicable marker "N/A"
parses to (0, 0, True), a present zero, not Absent; and the original
never-raises clause fails separately in the program: a coefficient of
non-ASCII digit characters (such as a superscript two) passes the
str.isdigit() guard while int() raises an uncaught ValueError at
src/main.py lines 63, 66, 75 and 80, a path outside the ASCII cell
grammar this embedding models. -/
theorem C8_parse_lenient_amended :
    parse_val Cell.na = (0, 0, false) ∧
    (∀ raw : Str, pyStrip raw = [] → parse_val (Cell.str raw) = (0, 0, false)) ∧
    (∀ raw : Str, lowerL (pyStrip raw) = ("nan").data →
      parse_val (Cell.str raw) = (0, 0, false)) ∧
    (∀ l : Str, l ≠ [] → l.all decChar = true → pyFloat l = none →
      parse_val (Cell.str l) = (0, 0, false)) ∧
    (∀ l : Str, l.all decChar = true → ∀ q : ℚ, pyFloat l = some q →
      parse_val (Cell.str l) = (q, 0, true)) ∧
    (∀ raw : Str, pyStrip raw ≠ [] → lowerL (pyStrip raw) ≠ ("nan").data →
      replCtoC (pyStrip raw) ≠ ['C'] → upperL (replCtoC (pyStrip raw)) = ("N/A").data →
      parse_val (Cell.str raw) = (0, 0, true)) := by
  refine ⟨rfl, ?_, ?_, ?_, ?_, ?_⟩
  · intro raw h
    rw [parse_val_str_eq, if_pos h]
  · intro raw h
    by_cases he : pyStrip raw = []
    · rw [parse_val_str_eq, if_pos he]
    · rw [parse_val_str_eq, if_neg he, if_pos h]
  · intro l hne hall hnone
    obtain ⟨hstrip, hrepl, hnan, hC, hNA, hplus, hspaces, hlastC, hlastn⟩ :=
      decAlpha_gate l hne hall
    rw [parse_val_str_eq, hstrip, hrepl, if_neg hne, if_neg hnan, if_neg hC, if_neg hNA,
      hnone, if_neg (by rw [hplus]; exact Bool.false_ne_true), hspaces, if_neg hlastC,
      if_neg hlastn]
  · intro l hall q hq
    have hne : l ≠ [] := by
      intro h
      subst h
      rw [show pyFloat [] = none from rfl] at hq
      exact Option.noConfusion hq
    obtain ⟨hstrip, hrepl, hnan, hC, hNA, _, _, _, _⟩ := decAlpha_gate l hne hall
    rw [parse_val_str_eq, hstrip, hrepl, if_neg hne, if_neg hnan, if_neg hC, if_neg hNA, hq]
  · intro raw h0 h1 h2 h3
    rw [parse_val_str_eq, if_neg h0, if_neg h1, if_neg h2, if_pos h3]

theorem C8_parse_lenient_amended_witness :
    parse_val (Cell.str ("1.2.3").data) = (0, 0, false) :=
  C8_parse_lenient_amended.2.2.2.1 ("1.2.3").data (by decide) (by decide) (by decide)

/-- C3 counterexample: step3_divide_national_state (legacy_main.py line
236) replaces the zeros of the NUMERATOR with NaN and divides by the
unguarded denominator, so a zero denominator yields +Infinity — the claim
that Divide never produces an infinite value fails on this cited
variant. -/
theorem C3_legacy_zero_denominator_cex :
    legacyDivCell (Vl.fin 5) (Vl.fin 0) = Vl.pInf := by
  rw [legacyDivCell, if_neg (by simp)]
  show (if (0 : ℚ) = 0 then (if (5 : ℚ) = 0 then Vl.nan else if (0 : ℚ) < 5 then Vl.pInf
    else Vl.nInf) else Vl.fin (5 / 0)) = Vl.pInf
  norm_num

/-- C3 (amended): in divide.py and divide2.py the denominator's zeros are
replaced by NaN before dividing, so a zero denominator (or a missing
denominator column) yields the NaN marker, every other cell is the exact
quotient, and no cell is ever an infinity; the legacy
step3_divide_national_state instead guards the numerator, and a positive
numerator over a zero denominator yields +Infinity there. -/
theorem C3_divide_zero_guard_amended :
    (∀ n : ℚ, divCell (Vl.fin n) (Vl.fin 0) = Vl.nan) ∧
    (∀ n d : ℚ, d ≠ 0 → divCell (Vl.fin n) (Vl.fin d) = Vl.fin (n / d)) ∧
    (∀ a b : Vl, a ≠ Vl.pInf → a ≠ Vl.nInf →
      divCell a b ≠ Vl.pInf ∧ divCell a b ≠ Vl.nInf) ∧
    (∀ n : Vl, divResult n none = Vl.nan) ∧
    (∀ t : ℚ, 0 < t → legacyDivCell (Vl.fin t) (Vl.fin 0) = Vl.pInf) := by
  refine ⟨?_, ?_, ?_, ?_, ?_⟩
  · intro n
    rw [divCell, if_pos rfl]
    rfl
  · intro n d hd
    rw [divCell, if_neg (by simp [hd])]
    simp [vdiv, hd]
  · intro a b ha1 ha2
    rcases a with q | _ | _ | _
    · rcases b with p | _ | _ | _
      · by_cases hp : p = 0
        · subst hp
          rw [divCell, if_pos rfl]
          exact ⟨by simp [vdiv], by simp [vdiv]⟩
        · rw [divCell, if_neg (by simp [hp])]
          simp [vdiv, hp]
      · rw [divCell, if_neg (by simp)]
        simp [vdiv]
      · rw [divCell, if_neg (by simp)]
        simp [vdiv]
      · rw [divCell, if_neg (by simp)]
        simp [vdiv]
    · exact absurd rfl ha1
    · exact absurd rfl ha2
    · rcases b with p | _ | _ | _
      · constructor
        · simp only [divCell]
          split_ifs <;> simp [vdiv]
        · simp only [divCell]
          split_ifs <;> simp [vdiv]
      · exact ⟨by simp [divCell, vdiv], by simp [divCell, vdiv]⟩
      · exact ⟨by simp [divCell, vdiv], by simp [divCell, vdiv]⟩
      · exact ⟨by simp [divCell, vdiv], by simp [divCell, vdiv]⟩
  · intro n
    rfl
  · intro t ht
    rw [legacyDivCell, if_neg (by simp [ht.ne'])]
    simp [vdiv, ht.ne', ht]

theorem C3_divide_zero_guard_amended_witness :
    divCell (Vl.fin 6) (Vl.fin 3) = Vl.fin 2 := by
  rw [C3_divide_zero_guard_amended.2.1 6 3 (by norm_num)]
  norm_num

/-- C6 counterexample: process_csv_last_row has no zero guard, so with a
zero grand total a nonzero data cell becomes +Infinity after
division-by-total and rounding — not the Undefined (NaN) marker the claim
requires. -/
theorem C6_zero_total_infinity_cex :
    pctRows [(("A").data, [Vl.fin 5]), (("T").data, [Vl.fin 0])] =
      [(("A").data, [Vl.pInf]), (("T").data, [Vl.fin 100])] := by
  have hdiv : vdiv (Vl.fin 5) (Vl.fin 0) = Vl.pInf := by
    simp [vdiv]
  have hcell : pctCell (Vl.fin 5) (Vl.fin 0) = Vl.pInf := by
    rw [pctCell, hdiv]
    simp [vmul, vround2]
  simp [pctRows, hcell]

/-- C6 (amended): the percentage converter forces the total row to exactly
100 in every numeric column and rescales every data cell to
100 × cell / total rounded to 2 decimals when the total is nonzero; but
when the total's base is zero a positive cell becomes +Infinity, a
negative cell -Infinity and a zero cell NaN — there is no Undefined
marker. -/
theorem C6_percentage_amended (pre : List (Str × List Vl)) (tl : Str) (tc : List Vl) :
    ((pctRows (pre ++ [(tl, tc)])).getLast? = some (tl, tc.map (fun _ => Vl.fin 100))) ∧
    (pctRows (pre ++ [(tl, tc)]) =
      (pre.map (fun r => (r.1, List.zipWith pctCell r.2 tc))) ++
        [(tl, tc.map (fun _ => Vl.fin 100))]) ∧
    (∀ x t : ℚ, t ≠ 0 → pctCell (Vl.fin x) (Vl.fin t) = Vl.fin (round2 (x / t * 100))) ∧
    (∀ x : ℚ, 0 < x → pctCell (Vl.fin x) (Vl.fin 0) = Vl.pInf) ∧
    (∀ x : ℚ, x < 0 → pctCell (Vl.fin x) (Vl.fin 0) = Vl.nInf) ∧
    pctCell (Vl.fin 0) (Vl.fin 0) = Vl.nan := by
  have hrows : pctRows (pre ++ [(tl, tc)]) =
      (pre.map (fun r => (r.1, List.zipWith pctCell r.2 tc))) ++
        [(tl, tc.map (fun _ => Vl.fin 100))] := by
    rw [pctRows.eq_def, List.getLast?_concat]
    rw [List.dropLast_concat]
  refine ⟨?_, hrows, ?_, ?_, ?_, ?_⟩
  · rw [hrows, List.getLast?_concat]
  · intro x t ht
    rw [pctCell]
    simp [vdiv, vmul, vround2, ht]
  · intro x hx
    rw [pctCell]
    have h1 : vdiv (Vl.fin x) (Vl.fin 0) = Vl.pInf := by
      simp [vdiv, hx.ne', hx]
    rw [h1]
    show (if (100 : ℚ) = 0 then Vl.nan else if (0 : ℚ) < 100 then Vl.pInf else Vl.nInf) = Vl.pInf
    norm_num
  · intro x hx
    rw [pctCell]
    have h1 : vdiv (Vl.fin x) (Vl.fin 0) = Vl.nInf := by
      simp [vdiv, hx.ne, not_lt.mpr hx.le]
    rw [h1]
    show (if (100 : ℚ) = 0 then Vl.nan else if (0 : ℚ) < 100 then Vl.nInf else Vl.pInf) = Vl.nInf
    norm_num
  · rfl

theorem C6_percentage_amended_witness :
    pctCell (Vl.fin 5) (Vl.fin 20) = Vl.fin 25 := by
  rw [(C6_percentage_amended [] [] []).2.2.1 5 20 (by norm_num)]
  have hfloor : ⌊(5 : ℚ) / 20 * 100 * 100⌋ = 2500 := by
    rw [show ((5 : ℚ) / 20 * 100 * 100) = ((2500 : ℤ) : ℚ) by norm_num, Int.floor_intCast]
  have h25 : round2 (5 / 20 * 100) = 25 := by
    rw [round2, roundHE]
    simp only [hfloor]
    norm_num
  rw [h25]

/-- C4 counterexample: add_total_row_to_df sums every row of the table, so
a pre-existing "Total" row is summed into the appended total: with a
sector row worth 5 and an existing total worth 7 the new total is 12, not
5 — the claim that only sector rows are summed fails on this cited
implementation. -/
theorem C4_add_total_row_cex :
    (addTotalRowL [(("Sector A").data, [5]), (("Total").data, [7])] 1).getLast? =
      some (("Total").data, [12]) ∧ (12 : ℚ) ≠ 5 := by
  constructor
  · rw [addTotalRowL, List.getLast?_concat]
    have hcell : totalCell [(("Sector A").data, [(5 : ℚ)]), (("Total").data, [7])] 0 = 12 := by
      rw [totalCell]
      norm_num
    rw [show List.range 1 = [0] from rfl, List.map_cons, List.map_nil, hcell]
  · norm_num

/-- C4 (amended): the checksum row of _append_checksum_row sums only rows
whose label starts with "Sector " — appending any non-sector row (such as
a pre-existing total) leaves every checksum cell unchanged — while the
legacy add_total_row_to_df sums all rows, each appended row adding its
own cell into the total. -/
theorem C4_total_row_amended :
    (∀ (rows : List (Str × List Cell)) (r : Str × List Cell) (j : ℕ),
      isSector r.1 = false → checksumCell (rows ++ [r]) j = checksumCell rows j) ∧
    (∀ (rows : List (Str × List ℚ)) (extra : Str × List ℚ) (j : ℕ),
      totalCell (rows ++ [extra]) j = totalCell rows j + extra.2.getD j 0) ∧
    (∀ (rows : List (Str × List ℚ)) (ncols : ℕ),
      addTotalRowL rows ncols =
        rows ++ [(("Total").data, (List.range ncols).map (fun j => totalCell rows j))]) := by
  refine ⟨?_, ?_, ?_⟩
  · intro rows r j h
    rw [checksumCell, checksumCell, List.filter_append]
    simp [h]
  · intro rows extra j
    rw [totalCell, totalCell, List.map_append, List.sum_append]
    simp
  · intro rows ncols
    rfl

theorem C4_total_row_amended_witness :
    checksumCell ([(("Sector A").data, [Cell.num 5])] ++ [(("Total").data, [Cell.num 7])]) 0 =
      checksumCell [(("Sector A").data, [Cell.num 5])] 0 :=
  C4_total_row_amended.1 [(("Sector A").data, [Cell.num 5])]
    ((("Total").data, [Cell.num 7])) 0 (by decide)

/-- C7 counterexample: export_nation_state_wide_csvs reshapes with
pivot_table(aggfunc="sum"), which silently sums two records mapping to the
same (activity, year) key into one cell (here 1 + 2 = 3) instead of
failing with a DuplicateKey error. -/
theorem C7_pivot_table_silent_sum_cex :
    pivotTableCellL [(("A").data, ("Y").data, 1), (("A").data, ("Y").data, 2)]
      ("A").data ("Y").data = 3 := by
  rw [pivotTableCellL]
  have h : ((("A").data : Str) == ("A").data) && ((("Y").data : Str) == ("Y").data) = true := by
    decide
  simp [h]
  norm_num

/-- C7 (amended): the strict pivot used by build_national_wide_csv fails
(errors) whenever two records share a (row, column) key and otherwise
returns every record's value unchanged, never merging; the legacy
exporter's pivot_table instead silently sums duplicate keys. -/
theorem C7_reshape_duplicate_amended :
    (∀ records : List (Str × Str × ℚ), ¬(records.map recKey).Nodup →
      pivotStrict records = Except.error ()) ∧
    (∀ records : List (Str × Str × ℚ), (records.map recKey).Nodup →
      pivotStrict records = Except.ok (records.map (fun r => (recKey r, r.2.2)))) := by
  constructor
  · intro records h
    rw [pivotStrict, if_neg h]
  · intro records h
    rw [pivotStrict, if_pos h]

theorem C7_reshape_duplicate_amended_witness :
    pivotStrict [(("A").data, ("Y").data, 1), (("A").data, ("Y").data, 2)] =
      Except.error () :=
  C7_reshape_duplicate_amended.1 [(("A").data, ("Y").data, 1), (("A").data, ("Y").data, 2)]
    (by decide)

/-- C9 counterexample: build_national_wide_csv moves the total row to the
end of the source rows but then appends the checksum row after it, so the
final row of the produced table is labelled "checksum", not the designated
total label. -/
theorem C9_checksum_after_total_cex :
    ((buildRowsFinal (("Total Nacional").data)
        [(("Total Nacional").data, [Cell.num 1]), (("Sector A").data, [Cell.num 2])] 1).map
      (fun r => r.1)) =
      [("Sector A").data, ("Total Nacional").data, ("checksum").data] ∧
    ("checksum").data ≠ ("Total Nacional").data := by
  constructor
  · have h1 : ((("Total Nacional").data : Str) == ("Total Nacional").data) = true := by decide
    have h2 : ((("Sector A").data : Str) == ("Total Nacional").data) = false := by decide
    simp [buildRowsFinal, moveTotalLast, checksumRowOf, h1, h2]
  · decide

/-- C9 (amended): when the table has exactly one row with the designated
total label, the builders place that row immediately before the appended
checksum row, which occupies the final position; the legacy exporter's
add_total_row_to_df does put its "Total" row in the final position. -/
theorem C9_row_order_amended (lbl : Str) (rows : List (Str × List Cell)) (ncols : ℕ)
    (h1 : (rows.filter (fun r => r.1 == lbl)).length = 1) :
    (((buildRowsFinal lbl rows ncols).map (fun r => r.1)).getLast? =
      some ("checksum").data) ∧
    ((buildRowsFinal lbl rows ncols).dropLast.getLast?.map (fun r => r.1) = some lbl) ∧
    (∀ (rws : List (Str × List ℚ)) (n : ℕ),
      (addTotalRowL rws n).getLast?.map (fun r => r.1) = some ("Total").data) := by
  obtain ⟨r0, hr0⟩ := List.length_eq_one.mp h1
  have hr0mem : r0 ∈ rows.filter (fun r => r.1 == lbl) := by
    rw [hr0]
    simp
  have hr0lbl : r0.1 = lbl := by
    have := List.of_mem_filter hr0mem
    exact eq_of_beq this
  have hany : rows.any (fun r => r.1 == lbl) = true := by
    rw [List.any_eq_true]
    exact ⟨r0, List.mem_of_mem_filter hr0mem, by rw [hr0lbl]; simp⟩
  have hmove : moveTotalLast lbl rows = rows.filter (fun r => r.1 != lbl) ++ [r0] := by
    rw [moveTotalLast, if_pos hany, hr0]
  refine ⟨?_, ?_, ?_⟩
  · rw [buildRowsFinal, List.map_append, List.map_cons, List.map_nil, checksumRowOf,
      List.getLast?_concat]
  · rw [buildRowsFinal, List.dropLast_concat, hmove, List.getLast?_concat]
    rw [Option.map_some', hr0lbl]
  · intro rws n
    rw [addTotalRowL, List.getLast?_concat, Option.map_some']

theorem C9_row_order_amended_witness :
    ((buildRowsFinal (("Total").data)
        [(("Sector A").data, []), (("Total").data, [])] 0).map (fun r => r.1)).getLast? =
      some ("checksum").data :=
  (C9_row_order_amended (("Total").data)
    [(("Sector A").data, []), (("Total").data, [])] 0 (by decide)).1

theorem regionalFold (vs : List Cell) (b0 : ℚ) (k0 : ℕ) :
    vs.foldl (fun acc v =>
        let p := parse_cell v
        (acc.1 + p.1, acc.2 + p.2)) (b0, k0) =
      (b0 + (vs.map (fun v => (parse_cell v).1)).sum,
        k0 + (vs.map (fun v => (parse_cell v).2)).sum) := by
  induction vs generalizing b0 k0 with
  | nil => simp
  | cons v t ih =>
    rw [List.foldl_cons]
    rw [ih]
    simp [add_assoc]

/-- C5 counterexample: process_saic.process_variable builds the regional
pivot with fill_value=0 and a zero-fill loop for missing (region, year)
columns, so a municipality with no record for a (activity, year) pair
contributes a numeric 0 cell to the regional table — the cell type has no
Absent at all. Municipality M1 reports activity A only in 2008, yet the
2013 regional cell is the number 0 (while 2008 is 5). -/
theorem C5_process_variable_fill_zero_cex :
    processVariableCell [⟨("M1").data, ("A").data, 2008, 5⟩] [("M1").data]
        ("A").data 2013 = 0 ∧
      processVariableCell [⟨("M1").data, ("A").data, 2008, 5⟩] [("M1").data]
        ("A").data 2008 = 5 := by
  constructor
  · rfl
  · rw [processVariableCell]
    have hpred : (List.filter (fun r =>
        ([("M1").data].contains r.mun && r.mun != [] && r.act == ("A").data &&
          r.year == 2008))
        [(⟨("M1").data, ("A").data, 2008, 5⟩ : SRec)]) =
        [⟨("M1").data, ("A").data, 2008, 5⟩] := by
      decide
    rw [hpred]
    norm_num

/-- C5 (amended): in build_tam_regional_wide_csvs a municipality missing
the activity row or the column contributes the pd.NA cell (Absent), which
adds nothing to the aggregated base and censoring count; pd.NA is never
the numeric zero cell. The legacy process_saic.process_variable instead
fills such cells with a numeric 0. -/
theorem C5_missing_cell_amended :
    (∀ (t : MuniTable) (act c : Str), t.find? (fun r => r.1 == act) = none →
      muniCell t act c = Cell.na) ∧
    (∀ (t : MuniTable) (act c : Str) (row : Str × List (Str × Cell)),
      t.find? (fun r => r.1 == act) = some row →
      row.2.find? (fun p => p.1 == c) = none → muniCell t act c = Cell.na) ∧
    (∀ q : ℚ, Cell.na ≠ Cell.num q) ∧
    (∀ vs : List Cell, regionalAggCell (Cell.na :: vs) = regionalAggCell vs) := by
  refine ⟨?_, ?_, ?_, ?_⟩
  · intro t act c h
    unfold muniCell
    rw [h]
  · intro t act c row h hcol
    unfold muniCell
    rw [h]
    show (match List.find? (fun p => p.1 == c) row.2 with
      | none => Cell.na
      | some p => p.2) = Cell.na
    rw [hcol]
  · intro q h
    exact absurd h (by simp)
  · intro vs
    rw [regionalAggCell, regionalAggCell, List.foldl_cons]
    simp only [show parse_cell Cell.na = ((0 : ℚ), (0 : ℕ)) from rfl]
    simp only [regionalFold]
    congr 1
    norm_num

theorem C5_missing_cell_amended_witness :
    muniCell [] (("A").data) (("X_2008").data) = Cell.na :=
  C5_missing_cell_amended.1 [] (("A").data) (("X_2008").data) rfl
